import Mathlib

/-!
# The `bounce` request builder

A shallow embedding of `src/request/request.go` (package `request`): the
chainable `URL` builder, its configuration methods, `Full` and `ConsumeAPI`;
and, in the namespace `TopLevel`, of the builder of `src/request.go` (package
`bounce`).

Conventions of the embedding

* A Go `string` is a sequence of bytes, and a Lean `String` stands for it unit
  by unit: the builder never looks inside a string, it concatenates strings,
  compares them with the empty string and trims a one-byte suffix.  Where the
  bytes matter, in the JSON decoder, the Go string with the bytes `bs` is
  `ofBytes bs`.  `fmt.Sprint` / `fmt.Sprintf("%v...")` on string operands is
  concatenation.
* A Go `map[string]string` is a `GoMap`: a list of entries with pairwise
  distinct keys.  The order of the list is an artefact of the model; a `range`
  loop over a map visits its entries in an order chosen by a `RangeOrder`, which
  every method that ranges over a map receives as an argument.  The maps of a
  builder are allocated maps, as `DefaultURL` makes them; the zero value of the
  struct, whose maps are `nil`, is outside the model.
* A method with receiver `u *URL` that mutates `u` and returns it is a function
  `URL → URL`.
* The lines handed to the standard logger by the `verbose` branches are
  collected in the extra field `URL.log` (without the time stamp the logger
  puts in front of them).
-/

namespace Bounce

/-! ## Values of type `interface{}` and the `%v` verb -/

/-- The values of type `interface{}` that the model distinguishes. -/
inductive Value where
  | null : Value
  | int (i : Int) : Value
  | str (s : String) : Value
  | bool (b : Bool) : Value
  deriving DecidableEq, Repr

/-- The text `fmt` prints for a value under the verb `%v`. -/
def Value.format : Value → String
  | .null => "<nil>"
  | .int i => toString i
  | .str s => s
  | .bool b => if b then "true" else "false"

/-! ## `strings.Reader` -/

/-- A `*strings.Reader`: the text `s` and the read offset `i`. -/
structure Reader where
  s : String
  i : Nat
  deriving DecidableEq, Repr

/-- `strings.NewReader(s)`. -/
def NewReader (s : String) : Reader := { s := s, i := 0 }

/-- The text a reader still has to deliver. -/
def Reader.rest (r : Reader) : String := ⟨r.s.data.drop r.i⟩

/-- The reader after `n` more characters have been read from it. -/
def Reader.advance (r : Reader) (n : Nat) : Reader :=
  { r with i := min (r.i + n) r.s.length }

/-! ## `strings.TrimSuffix` -/

/-- `strings.TrimSuffix(s, suffix)`: `s` without the trailing `suffix`, or `s`
itself when it does not end with `suffix`. -/
def TrimSuffix (s suffix : String) : String :=
  if suffix.data.isSuffixOf s.data then
    ⟨s.data.take (s.data.length - suffix.data.length)⟩
  else s

/-! ## Go maps -/

/-- A `map[string]string`: entries with pairwise distinct keys. -/
structure GoMap where
  entries : List (String × String)
  nodup : (entries.map Prod.fst).Nodup

instance : DecidableEq GoMap := fun a b =>
  match a, b with
  | ⟨ea, _⟩, ⟨eb, _⟩ =>
    if h : ea = eb then isTrue (by subst h; rfl)
    else isFalse (fun h' => h (by cases h'; rfl))

/-- Assignment `m[k] = v` on an entry list. -/
def setEntry (k v : String) : List (String × String) → List (String × String)
  | [] => [(k, v)]
  | (k', v') :: t => if k' = k then (k, v) :: t else (k', v') :: setEntry k v t

/-- Lookup `m[k]` on an entry list. -/
def getEntry (k : String) : List (String × String) → Option String
  | [] => none
  | (k', v') :: t => if k' = k then some v' else getEntry k t

namespace GoMap

/-- The result of `make(map[string]string)`. -/
def make : GoMap := ⟨[], List.nodup_nil⟩

/-- The map after `m[k] = v`. -/
def set (m : GoMap) (k v : String) : GoMap :=
  ⟨setEntry k v m.entries, by
    have keys : ∀ l : List (String × String), (setEntry k v l).map Prod.fst =
        if k ∈ l.map Prod.fst then l.map Prod.fst else l.map Prod.fst ++ [k] := by
      intro l
      induction l with
      | nil => simp [setEntry]
      | cons hd t ih =>
        obtain ⟨k', v'⟩ := hd
        by_cases h : k' = k
        · subst h; simp [setEntry]
        · have h' : ¬ k = k' := fun e => h e.symm
          by_cases hm : k ∈ t.map Prod.fst
          · simp only [setEntry, h, if_false, List.map_cons, ih, hm, if_true, List.mem_cons,
              or_true]
          · simp only [setEntry, h, if_false, List.map_cons, ih, hm, List.mem_cons, h', or_self,
              List.cons_append]
    rw [keys]
    split
    · exact m.nodup
    · rename_i hk
      exact List.Nodup.append m.nodup (List.nodup_singleton k) (by simpa using hk)⟩

/-- The value `m[k]`, if the key is present. -/
def get? (m : GoMap) (k : String) : Option String := getEntry k m.entries

/-- The keys of the map. -/
def keys (m : GoMap) : List String := m.entries.map Prod.fst

/-- A map literal: the entries are assigned one after the other. -/
def ofList (l : List (String × String)) : GoMap :=
  l.foldl (fun (m : GoMap) (kv : String × String) => m.set kv.1 kv.2) make

end GoMap

/-- The order in which `range` loops visit the entries of a map: `pick i l` is
the order in which the `i`-th `range` loop of a method body visits the entries
`l`; it is some permutation of them. -/
structure RangeOrder where
  pick : Nat → List (String × String) → List (String × String)
  perm : ∀ i l, (pick i l).Perm l

/-- Every loop visits the entries as they are listed. -/
def RangeOrder.listed : RangeOrder := ⟨fun _ l => l, fun _ l => List.Perm.refl l⟩

/-- Every loop visits the entries in reverse. -/
def RangeOrder.reversed : RangeOrder := ⟨fun _ l => l.reverse, fun _ l => List.reverse_perm l⟩

/-- Every loop visits the entries rotated by `n`. -/
def RangeOrder.rotated (n : Nat) : RangeOrder :=
  ⟨fun _ l => l.rotate n, fun _ l => List.rotate_perm l n⟩

/-! ## The builder -/

/-- The struct `URL` of package `request`, with the log of the lines written
through the standard logger. -/
structure URL where
  ArgMap : GoMap
  HeadersMap : GoMap
  PayloadMap : GoMap
  protocol : String
  domain : String
  pathVals : List String
  path : String
  page : Value
  perPage : Value
  pageNoArg : String
  perPageNoArg : String
  pagination : String
  full : String
  argStr : String
  method : String
  verbose : Bool
  payload : Option Reader
  log : List String
  deriving DecidableEq

/-- `DefaultURL()`. -/
def DefaultURL : URL :=
  { ArgMap := GoMap.make
    HeadersMap := GoMap.make
    PayloadMap := GoMap.make
    protocol := "http://"
    domain := ""
    pathVals := []
    path := ""
    page := Value.null
    perPage := Value.null
    pageNoArg := "page"
    perPageNoArg := "perPage"
    pagination := ""
    full := ""
    argStr := ""
    method := "GET"
    verbose := false
    payload := none
    log := [] }

/-- `log.Println` / `log.Printf` under `if u.verbose`. -/
def URL.logIf (u : URL) (line : String) : List String :=
  if u.verbose then u.log ++ [line] else u.log

/-- `(*URL).VerboseOn`. -/
def VerboseOn (u : URL) : URL := { u with verbose := true }

/-- `(*URL).VerboseOff`. -/
def VerboseOff (u : URL) : URL := { u with verbose := false }

/-- `(*URL).Secure`. -/
def Secure (u : URL) : URL :=
  let u := { u with protocol := "https://" }
  { u with log := u.logIf "https = on" }

/-- `(*URL).UnSecure`. -/
def UnSecure (u : URL) : URL :=
  let u := { u with protocol := "http://" }
  { u with log := u.logIf "https = off" }

/-- `(*URL).SetPaginationArgNames`. -/
def SetPaginationArgNames (pageNo numberPerPage : String) (u : URL) : URL :=
  let u := { u with pageNoArg := pageNo, perPageNoArg := numberPerPage }
  { u with log := u.logIf "https = off" }

/-- `(*URL).Pagination`. -/
def Pagination (page per : Value) (u : URL) : URL :=
  let u := { u with page := page, perPage := per }
  let u := { u with
    pagination := u.pageNoArg ++ "=" ++ page.format ++ "&" ++ u.perPageNoArg ++ "=" ++ per.format }
  { u with log := u.logIf "https = off" }

/-- `(*URL).Method`. -/
def Method (m : String) (u : URL) : URL :=
  let u := { u with method := m }
  { u with log := u.logIf ("method = " ++ m) }

/-- `(*URL).Domain`. -/
def Domain (d : String) (u : URL) : URL :=
  let u := { u with domain := d }
  { u with log := u.logIf ("domain = " ++ d) }

/-- `(*URL).Path`. -/
def Path (pp : List String) (u : URL) : URL :=
  let path := ""
  let u := { u with pathVals := pp }
  let path := pp.foldl (fun path p => path ++ "/" ++ p) path
  let u := { u with path := u.path ++ path }
  { u with log := u.logIf ("path = " ++ u.path) }

/-- `(*URL).Args`: the first loop merges `args` into `ArgMap`, the second one
renders the whole of `ArgMap`. -/
def Args (o : RangeOrder) (args : GoMap) (u : URL) : URL :=
  let argStr := ""
  let u := { u with
    ArgMap := (o.pick 0 args.entries).foldl
      (fun (m : GoMap) (kv : String × String) => m.set kv.1 kv.2) u.ArgMap }
  let argStr := (o.pick 1 u.ArgMap.entries).foldl
    (fun (argStr : String) (kv : String × String) => argStr ++ kv.1 ++ "=" ++ kv.2 ++ "&") argStr
  let u := { u with argStr := TrimSuffix argStr "&" }
  { u with log := u.logIf ("query string args = " ++ u.argStr) }

/-- `(*URL).Payload`: the first loop merges `pl` into `PayloadMap`, the second
one renders the whole of `PayloadMap`, the third one logs it. -/
def Payload (o : RangeOrder) (pl : GoMap) (u : URL) : URL :=
  let PLStr := "\x7b"
  let u := { u with
    PayloadMap := (o.pick 0 pl.entries).foldl
      (fun (m : GoMap) (kv : String × String) => m.set kv.1 kv.2) u.PayloadMap }
  let PLStr := (o.pick 1 u.PayloadMap.entries).foldl
    (fun (PLStr : String) (kv : String × String) =>
      PLStr ++ "\"" ++ kv.1 ++ "\":\"" ++ kv.2 ++ "\",") PLStr
  let PLStr := TrimSuffix PLStr "," ++ "\x7d"
  let u := { u with payload := some (NewReader PLStr) }
  if u.verbose then
    let log := u.log ++ ["Payload = "]
    let log := (o.pick 2 u.PayloadMap.entries).foldl
      (fun (log : List String) (kv : String × String) =>
        log ++ ["\t " ++ kv.1 ++ ": " ++ kv.2]) log
    { u with log := log }
  else u

/-- `(*URL).Full`: the builder after the call, and the returned method, URL
and body. -/
def Full (u : URL) : URL × (String × String × Option Reader) :=
  let u := { u with full := u.protocol ++ u.domain }
  let u := if 0 < u.path.length then { u with full := u.full ++ u.path } else u
  let sep := "?"
  let (u, sep) :=
    if 0 < u.argStr.length then ({ u with full := u.full ++ sep ++ u.argStr }, "&")
    else (u, sep)
  let u := if 0 < u.pagination.length then { u with full := u.full ++ sep ++ u.pagination } else u
  let u := { u with log := u.logIf ("full URL path  = " ++ u.full) }
  (u, (u.method, u.full, u.payload))

/-! ## Sequences of calls -/

/-- A call of one of the methods of the builder. -/
inductive Call where
  | VerboseOn : Call
  | VerboseOff : Call
  | Secure : Call
  | UnSecure : Call
  | SetPaginationArgNames (pageNo numberPerPage : String) : Call
  | Pagination (page per : Value) : Call
  | Method (m : String) : Call
  | Domain (d : String) : Call
  | Path (pp : List String) : Call
  | Args (o : RangeOrder) (args : GoMap) : Call
  | Payload (o : RangeOrder) (pl : GoMap) : Call
  | Full : Call

/-- The builder after one call. -/
def Call.apply : Call → URL → URL
  | .VerboseOn, u => Bounce.VerboseOn u
  | .VerboseOff, u => Bounce.VerboseOff u
  | .Secure, u => Bounce.Secure u
  | .UnSecure, u => Bounce.UnSecure u
  | .SetPaginationArgNames a b, u => Bounce.SetPaginationArgNames a b u
  | .Pagination p n, u => Bounce.Pagination p n u
  | .Method m, u => Bounce.Method m u
  | .Domain d, u => Bounce.Domain d u
  | .Path pp, u => Bounce.Path pp u
  | .Args o args, u => Bounce.Args o args u
  | .Payload o pl, u => Bounce.Payload o pl u
  | .Full, u => (Bounce.Full u).1

/-- The builder after a sequence of calls, the first call of the list first. -/
def run (cs : List Call) (u : URL) : URL := cs.foldl (fun u c => c.apply u) u

/-- The segments passed to the `Path` calls of a sequence, in call order and
argument order. -/
def segmentsOf : List Call → List String
  | [] => []
  | .Path pp :: cs => pp ++ segmentsOf cs
  | _ :: cs => segmentsOf cs

/-! ## `ConsumeAPI` -/

/-- A non-nil `error`. -/
structure Error where
  msg : String
  deriving DecidableEq, Repr

/-- An `*http.Request`: method, URL, body and the header lines added to it. -/
structure Request where
  method : String
  url : String
  body : Option Reader
  header : List (String × String)
  deriving DecidableEq

/-- `req.Header.Add(k, v)`. -/
def Request.addHeader (req : Request) (k v : String) : Request :=
  { req with header := req.header ++ [(k, v)] }

/-- The collaborators of `ConsumeAPI`, which are no part of the repository:
`http.NewRequest`, `http.DefaultClient.Do` (with the number of characters of
the request body it reads), `ioutil.ReadAll` on the body of the response, and
`json.Unmarshal` (with the destination as it leaves it and the error it
returns, `none` for `nil`).  `ρ` is the type of responses, `δ` the type of
destinations. -/
structure Collaborators (ρ δ : Type) where
  NewRequest : String → String → Option Reader → Except Error Request
  Do : Request → Except Error ρ × Nat
  ReadAll : ρ → Except Error String
  Unmarshal : String → δ → δ × Option Error

/-- What a call of `ConsumeAPI` leaves behind: the builder, the destination,
the request handed to the client (`none` when none was), and the returned
error (`none` for `nil`). -/
structure Outcome (δ : Type) where
  u : URL
  dest : δ
  sent : Option Request
  err : Option Error

/-- `(*URL).ConsumeAPI`. -/
def ConsumeAPI {ρ δ : Type} (T : Collaborators ρ δ) (o : RangeOrder) (dest : δ) (u : URL) :
    Outcome δ :=
  let (u, (method, url, body)) := Full u
  match T.NewRequest method url body with
  | .error _ => { u := u, dest := dest, sent := none, err := none }
  | .ok req =>
    let req := (o.pick 0 u.HeadersMap.entries).foldl
      (fun (req : Request) (kv : String × String) => req.addHeader kv.1 kv.2) req
    let (res, n) := T.Do req
    let u := { u with payload := u.payload.map (fun r => r.advance n) }
    match res with
    | .error err => { u := u, dest := dest, sent := some req, err := some err }
    | .ok res =>
      match T.ReadAll res with
      | .error err => { u := u, dest := dest, sent := some req, err := some err }
      | .ok body =>
        let (dest, err) := T.Unmarshal body dest
        match err with
        | some err => { u := u, dest := dest, sent := some req, err := some err }
        | none => { u := u, dest := dest, sent := some req, err := err }

/-- A stand-in for the collaborators: `NewRequest` rejects a method that
contains a space, as `net/http` does for every method that is no token; the
client answers every request with the body `\x7b\x7d` after reading the
request body to its end; the destination is the decoded text. -/
def strictNet : Collaborators String String where
  NewRequest := fun method url body =>
    if method.data.contains ' ' then .error ⟨"net/http: invalid method"⟩
    else .ok { method := method, url := url, body := body, header := [] }
  Do := fun req => (.ok "\x7b\x7d", match req.body with
    | some r => r.rest.length
    | none => 0)
  ReadAll := fun res => .ok res
  Unmarshal := fun body _ => (body, none)

/-! ## Go strings as bytes

A Go string is a sequence of bytes, and `encoding/json` works on these bytes.
The string of the model that stands for the Go string with the bytes `bs` is
`ofBytes bs`: its characters have the bytes as their codes.  A string literal
of the model is ASCII and stands for itself. -/

/-- The string that stands for the Go string with the given bytes. -/
def ofBytes (bs : List Nat) : String := ⟨bs.map Char.ofNat⟩

/-- The bytes of the Go string that a string stands for. -/
def toBytes (s : String) : List Nat := s.data.map Char.toNat

/-- `utf8.RuneError`, U+FFFD. -/
def RuneError : Nat := 65533

/-- A continuation byte of UTF-8, `0x80` to `0xBF`. -/
def isCont (b : Nat) : Bool := decide (128 ≤ b) && decide (b ≤ 191)

/-- `utf8.DecodeRune`: the first rune of a byte sequence and its width in
bytes; `(RuneError, 1)` when the sequence does not start with a valid
encoding. -/
def decodeRune : List Nat → Nat × Nat
  | [] => (RuneError, 0)
  | b0 :: rest =>
    if b0 < 128 then (b0, 1)
    else if 194 ≤ b0 ∧ b0 ≤ 223 then
      match rest with
      | b1 :: _ => if isCont b1 then ((b0 - 192) * 64 + (b1 - 128), 2) else (RuneError, 1)
      | [] => (RuneError, 1)
    else if 224 ≤ b0 ∧ b0 ≤ 239 then
      match rest with
      | b1 :: b2 :: _ =>
        if (if b0 = 224 then 160 else 128) ≤ b1 ∧ b1 ≤ (if b0 = 237 then 159 else 191) ∧
            isCont b2 then
          ((b0 - 224) * 4096 + (b1 - 128) * 64 + (b2 - 128), 3)
        else (RuneError, 1)
      | _ => (RuneError, 1)
    else if 240 ≤ b0 ∧ b0 ≤ 244 then
      match rest with
      | b1 :: b2 :: b3 :: _ =>
        if (if b0 = 240 then 144 else 128) ≤ b1 ∧ b1 ≤ (if b0 = 244 then 143 else 191) ∧
            isCont b2 ∧ isCont b3 then
          ((b0 - 240) * 262144 + (b1 - 128) * 4096 + (b2 - 128) * 64 + (b3 - 128), 4)
        else (RuneError, 1)
      | _ => (RuneError, 1)
    else (RuneError, 1)

/-- `utf8.AppendRune`: the UTF-8 encoding of a rune; a surrogate and a rune
above U+10FFFF are encoded as `RuneError`. -/
def encodeRune (r : Nat) : List Nat :=
  if r < 128 then [r]
  else if r < 2048 then [192 + r / 64, 128 + r % 64]
  else if 1114111 < r ∨ (55296 ≤ r ∧ r ≤ 57343) then [239, 191, 189]
  else if r < 65536 then [224 + r / 4096, 128 + r / 64 % 64, 128 + r % 64]
  else [240 + r / 262144, 128 + r / 4096 % 64, 128 + r / 64 % 64, 128 + r % 64]

/-- A Unicode scalar value: a code point up to U+10FFFF that is no
surrogate. -/
def isScalar (r : Nat) : Bool :=
  decide (r < 55296) || (decide (57344 ≤ r) && decide (r < 1114112))

/-- The UTF-8 encoding of a sequence of runes. -/
def utf8 (rs : List Nat) : List Nat := rs.flatMap encodeRune

/-! ## Decoding a JSON object of strings

The JSON decoder is no part of the repository.  `decodeObject` decodes the
bytes of a text into a `map[string]string` as `encoding/json` does: an object
whose members are strings, with white space between the tokens and the
two-character escapes inside strings; inside a string every byte sequence that
is no valid UTF-8 encoding is replaced, byte by byte, by U+FFFD.  It rejects
every other text; an escape `\u` is not decoded and rejected as well. -/

/-- JSON white space: space, tab, line feed, carriage return. -/
def isSpace (b : Nat) : Bool := b = 32 || b = 9 || b = 10 || b = 13

/-- The text behind leading white space. -/
def skipSpace : List Nat → List Nat
  | [] => []
  | b :: bs => if isSpace b then skipSpace bs else b :: bs

/-- The byte that the escape made of a backslash and the byte `b` stands for:
the escapes of the double quote, the backslash, the slash and of the letters
`b`, `f`, `n`, `r`, `t`. -/
def unescape (b : Nat) : Option Nat :=
  if b = 34 then some 34
  else if b = 92 then some 92
  else if b = 47 then some 47
  else if b = 98 then some 8
  else if b = 102 then some 12
  else if b = 110 then some 10
  else if b = 114 then some 13
  else if b = 116 then some 9
  else none

/-- Reads a string literal from behind its opening quote on: the bytes of the
string and the text behind the closing quote.  A byte below `0x20` is refused;
every other byte that is neither the quote nor the backslash starts a rune,
which is decoded and appended in its UTF-8 encoding.  `acc` holds the bytes
read so far, the last one first; every rune and every escape uses up one unit
of `fuel`. -/
def readString : Nat → List Nat → List Nat → Option (List Nat × List Nat)
  | 0, _, _ => none
  | _ + 1, [], _ => none
  | fuel + 1, b :: bs, acc =>
    if b = 34 then some (acc.reverse, bs)
    else if b = 92 then
      match bs with
      | [] => none
      | e :: bs' =>
        match unescape e with
        | some d => readString fuel bs' (d :: acc)
        | none => none
    else if b < 32 then none
    else
      readString fuel ((b :: bs).drop (decodeRune (b :: bs)).2)
        ((encodeRune (decodeRune (b :: bs)).1).reverse ++ acc)

/-- Skips white space and then the byte `b`. -/
def expect (b : Nat) (bs : List Nat) : Option (List Nat) :=
  match skipSpace bs with
  | [] => none
  | d :: rest => if d = b then some rest else none

/-- Reads one member `"key":"value"` of an object. -/
def readMember (bs : List Nat) : Option ((String × String) × List Nat) :=
  match expect 34 bs with
  | none => none
  | some bs =>
    match readString bs.length bs [] with
    | none => none
    | some (k, bs) =>
      match expect 58 bs with
      | none => none
      | some bs =>
        match expect 34 bs with
        | none => none
        | some bs =>
          match readString bs.length bs [] with
          | none => none
          | some (v, bs) => some ((ofBytes k, ofBytes v), bs)

/-- Reads the members of an object up to its closing brace: the members in the
order of the text, and the text behind the brace.  Every member uses up one
unit of `fuel`. -/
def readMembers : Nat → List Nat → List (String × String) →
    Option (List (String × String) × List Nat)
  | 0, _, _ => none
  | fuel + 1, bs, acc =>
    match readMember bs with
    | none => none
    | some (kv, bs) =>
      match skipSpace bs with
      | [] => none
      | d :: rest =>
        if d = 44 then readMembers fuel rest (kv :: acc)
        else if d = 125 then some ((kv :: acc).reverse, rest)
        else none

/-- Decodes the bytes of a text as a JSON object of strings into a map; of two
members with the same key the later one wins.  The fuel is the length of the
text, and a member is longer than one byte. -/
def decodeObject (bs : List Nat) : Option GoMap :=
  match expect 123 bs with
  | none => none
  | some cs =>
    match expect 125 cs with
    | some rest => if skipSpace rest = [] then some GoMap.make else none
    | none =>
      match readMembers bs.length cs [] with
      | none => none
      | some (ms, rest) => if skipSpace rest = [] then some (GoMap.ofList ms) else none

/-- A Go string without double quote, backslash and control character: none of
its bytes is `0x22`, `0x5C`, below `0x20` or `0x7F`. -/
def noQuoteBackslashControl (s : String) : Bool :=
  (toBytes s).all (fun b => b != 34 && b != 92 && decide (32 ≤ b) && b != 127)

/-- The runes of a clean text: Unicode scalar values, none of them the double
quote, the backslash or below U+0020. -/
def CleanRunes (rs : List Nat) : Prop :=
  ∀ r ∈ rs, isScalar r = true ∧ r ≠ 34 ∧ r ≠ 92 ∧ 32 ≤ r

/-- A Go string that is valid UTF-8 without double quote, backslash and
control character: its bytes are the UTF-8 encoding of a sequence of Unicode
scalar values, none of them U+0022, U+005C or below U+0020. -/
def CleanUTF8 (s : String) : Prop :=
  ∃ rs : List Nat, CleanRunes rs ∧ s = ofBytes (utf8 rs)

/-- An ASCII string without double quote, backslash and control character. -/
def asciiClean (s : String) : Bool :=
  s.data.all (fun c => decide (32 ≤ c.toNat) && decide (c.toNat < 128) &&
    c.toNat != 34 && c.toNat != 92)

/-- The member `"key":"value"` of a payload, as `Payload` writes it. -/
def memberText (kv : String × String) : String :=
  "\"" ++ kv.1 ++ "\":\"" ++ kv.2 ++ "\""

/-- The bytes of a member. -/
def memberBytes (kv : String × String) : List Nat :=
  34 :: toBytes kv.1 ++ 34 :: 58 :: 34 :: toBytes kv.2 ++ [34]

/-- The bytes of a payload behind its first member: the other members, each
one after a comma, and the closing brace. -/
def tailBytes : List (String × String) → List Nat
  | [] => [125]
  | kv :: t => 44 :: memberBytes kv ++ tailBytes t

/-- The maps passed to the `Args` calls of a sequence, in call order. -/
def argsOf : List Call → List GoMap
  | [] => []
  | .Args _ args :: cs => args :: argsOf cs
  | _ :: cs => argsOf cs

/-- The value that the most recent map of a sequence of maps (the last of the
list is the most recent) holding the key `k` gives to `k`; `none` when no map
of the sequence holds `k`. -/
def lastSupplied : List GoMap → String → Option String
  | [], _ => none
  | m :: ms, k =>
    match lastSupplied ms k with
    | some v => some v
    | none => m.get? k

/-- The pair `key=value` of a query string. -/
def pairText (kv : String × String) : String := kv.1 ++ "=" ++ kv.2

/-- The key names passed to the most recent `SetPaginationArgNames` call of a
sequence; `none` when the sequence has no such call. -/
def lastArgNames : List Call → Option (String × String)
  | [] => none
  | c :: cs =>
    match lastArgNames cs with
    | some names => some names
    | none =>
      match c with
      | .SetPaginationArgNames pageNo numberPerPage => some (pageNo, numberPerPage)
      | _ => none

/-- The argument of the most recent `Method` call of a sequence; `none` when
the sequence has no such call. -/
def lastMethod : List Call → Option String
  | [] => none
  | c :: cs =>
    match lastMethod cs with
    | some m => some m
    | none =>
      match c with
      | .Method m => some m
      | _ => none

/-- The most recent scheme call of a sequence: `some true` for `Secure`,
`some false` for `UnSecure`, `none` when the sequence has neither. -/
def lastScheme : List Call → Option Bool
  | [] => none
  | c :: cs =>
    match lastScheme cs with
    | some b => some b
    | none =>
      match c with
      | .Secure => some true
      | .UnSecure => some false
      | _ => none

/-- The query string is the `&`-join of the pairs `key=value` of the entries of
the argument map, taken in some order. -/
def Rendered (u : URL) : Prop :=
  ∃ es : List (String × String),
    es.Perm u.ArgMap.entries ∧ u.argStr = "&".intercalate (es.map pairText)

/-- The URL of a builder in closed form: scheme, host and path, then the query
string and the pagination string, the first of them after `?` and the second
after `&`. -/
def urlOf (u : URL) : String :=
  u.protocol ++ u.domain ++ u.path ++
    (if u.argStr = "" then (if u.pagination = "" then "" else "?" ++ u.pagination)
     else if u.pagination = "" then "?" ++ u.argStr
     else "?" ++ u.argStr ++ "&" ++ u.pagination)

/-- The request after the loop over `HeadersMap` that adds every header to
it. -/
def attachHeaders (o : RangeOrder) (u : URL) (req : Request) : Request :=
  (o.pick 0 u.HeadersMap.entries).foldl
    (fun (req : Request) (kv : String × String) => req.addHeader kv.1 kv.2) req

/-- A stand-in for the collaborators that fails at one stage: at the
construction of the request for `stage = 0`, at sending for `stage = 1`, at
reading the body of the response for `stage = 2`, at decoding for `stage = 3`,
and nowhere for a larger `stage`. -/
def faultyNet (stage : Nat) : Collaborators String String where
  NewRequest := fun method url body =>
    if stage = 0 then .error ⟨"construct"⟩
    else .ok { method := method, url := url, body := body, header := [] }
  Do := fun _ => if stage = 1 then (.error ⟨"send"⟩, 0) else (.ok "response", 0)
  ReadAll := fun res => if stage = 2 then .error ⟨"read"⟩ else .ok res
  Unmarshal := fun body dest =>
    if stage = 3 then (dest, some ⟨"decode"⟩) else (body, none)

/-- The maps passed to the `Payload` calls of a sequence, in call order. -/
def payloadsOf : List Call → List GoMap
  | [] => []
  | .Payload _ pl :: cs => pl :: payloadsOf cs
  | _ :: cs => payloadsOf cs

/-- A sequence of `Payload` calls, each with its iteration order and its
map. -/
def payloadCalls (cs : List (RangeOrder × GoMap)) : List Call :=
  cs.map (fun c => Call.Payload c.1 c.2)

/-- The body is a fresh reader on the text made of an opening brace, the
`,`-join of the members `"key":"value"` of the entries of the payload map,
taken in some order, and a closing brace. -/
def BodyRendered (u : URL) : Prop :=
  ∃ es : List (String × String),
    es.Perm u.PayloadMap.entries ∧
    u.payload = some (NewReader ("\x7b" ++ ",".intercalate (es.map memberText) ++ "\x7d"))

/-- Whether a sequence of calls has a `Pagination` call. -/
def hasPagination : List Call → Bool
  | [] => false
  | .Pagination _ _ :: _ => true
  | _ :: cs => hasPagination cs

/-- Whether a call is `VerboseOn` or `VerboseOff`. -/
def isVerboseCall : Call → Bool
  | .VerboseOn => true
  | .VerboseOff => true
  | _ => false

/-- A sequence of calls without its `VerboseOn` and `VerboseOff` calls. -/
def dropVerbose (cs : List Call) : List Call := cs.filter (fun c => !isVerboseCall c)

/-- The builder with `verbose` switched off and the log emptied: two builders
with the same `core` agree on every field other than `verbose`, and differ at
most in the lines they have logged. -/
def core (u : URL) : URL := { u with verbose := false, log := [] }

/-- Two maps agree: they give the same value to every key that both hold. -/
def GoMap.Agree (a b : GoMap) : Prop :=
  ∀ k v w : String, a.get? k = some v → b.get? k = some w → v = w

/-- The number of characters of the request body that the client reads during
`ConsumeAPI`: what `Do` reports for the request with its headers, and nothing
when the request cannot be constructed. -/
def consumedBy {ρ δ : Type} (T : Collaborators ρ δ) (o : RangeOrder) (u : URL) : Nat :=
  match T.NewRequest (Full u).2.1 (Full u).2.2.1 (Full u).2.2.2 with
  | .error _ => 0
  | .ok req => (T.Do (attachHeaders o u req)).2

/-- The text of the body that a request hands to the client. -/
def Request.bodyText (req : Request) : Option String := req.body.map Reader.rest

/-! ## The builder of package `bounce` (`src/request.go`) -/

namespace TopLevel

/-- The struct `URL` of package `bounce`. -/
structure URL where
  ArgMap : GoMap
  HeadersMap : GoMap
  PayloadMap : GoMap
  protocol : String
  domain : String
  path : String
  pageNoArg : String
  perPageNoArg : String
  pagination : String
  full : String
  argStr : String
  method : String
  payload : Option Reader
  deriving DecidableEq

/-- `DefaultURL()` of package `bounce`. -/
def DefaultURL : URL :=
  { ArgMap := GoMap.make
    HeadersMap := GoMap.make
    PayloadMap := GoMap.make
    protocol := "http://"
    domain := ""
    path := ""
    pageNoArg := "page"
    perPageNoArg := "perPage"
    pagination := ""
    full := ""
    argStr := ""
    method := "GET"
    payload := none }

/-- `(*URL).Secure` of package `bounce`. -/
def Secure (u : URL) : URL := { u with protocol := "https://" }

/-- `(*URL).SetPaginationArgNames` of package `bounce`. -/
def SetPaginationArgNames (pageNo numberPerPage : String) (u : URL) : URL :=
  { u with pageNoArg := pageNo, perPageNoArg := numberPerPage }

/-- `(*URL).Pagination` of package `bounce`. -/
def Pagination (page per : Value) (u : URL) : URL :=
  { u with
    pagination := u.pageNoArg ++ "=" ++ page.format ++ "&" ++ u.perPageNoArg ++ "=" ++ per.format }

/-- `(*URL).Method` of package `bounce`. -/
def Method (m : String) (u : URL) : URL := { u with method := m }

/-- `(*URL).Domain` of package `bounce`. -/
def Domain (d : String) (u : URL) : URL := { u with domain := d }

/-- `(*URL).Path` of package `bounce`. -/
def Path (pp : List String) (u : URL) : URL :=
  let path := ""
  let path := pp.foldl (fun path p => path ++ "/" ++ p) path
  { u with path := u.path ++ path }

/-- `(*URL).Args` of package `bounce`. -/
def Args (o : RangeOrder) (args : GoMap) (u : URL) : URL :=
  let argStr := ""
  let u := { u with
    ArgMap := (o.pick 0 args.entries).foldl
      (fun (m : GoMap) (kv : String × String) => m.set kv.1 kv.2) u.ArgMap }
  let argStr := (o.pick 1 u.ArgMap.entries).foldl
    (fun (argStr : String) (kv : String × String) => argStr ++ kv.1 ++ "=" ++ kv.2 ++ "&") argStr
  { u with argStr := TrimSuffix argStr "&" }

/-- `(*URL).Payload` of package `bounce`. -/
def Payload (o : RangeOrder) (pl : GoMap) (u : URL) : URL :=
  let PLStr := "\x7b"
  let u := { u with
    PayloadMap := (o.pick 0 pl.entries).foldl
      (fun (m : GoMap) (kv : String × String) => m.set kv.1 kv.2) u.PayloadMap }
  let PLStr := (o.pick 1 u.PayloadMap.entries).foldl
    (fun (PLStr : String) (kv : String × String) =>
      PLStr ++ "\"" ++ kv.1 ++ "\":\"" ++ kv.2 ++ "\",") PLStr
  let PLStr := TrimSuffix PLStr "," ++ "\x7d"
  { u with payload := some (NewReader PLStr) }

/-- `(*URL).Full` of package `bounce`: the builder after the call, and the
returned method, URL and body. -/
def Full (u : URL) : URL × (String × String × Option Reader) :=
  let u := { u with full := u.protocol ++ u.domain }
  let u := if 0 < u.path.length then { u with full := u.full ++ u.path } else u
  let sep := "?"
  let (u, sep) :=
    if 0 < u.argStr.length then ({ u with full := u.full ++ sep ++ u.argStr }, "&")
    else (u, sep)
  let u := if 0 < u.pagination.length then { u with full := u.full ++ sep ++ u.pagination } else u
  (u, (u.method, u.full, u.payload))

end TopLevel

/-- A call of one of the methods that the builders of the two packages
share. -/
inductive SharedCall where
  | Secure : SharedCall
  | SetPaginationArgNames (pageNo numberPerPage : String) : SharedCall
  | Pagination (page per : Value) : SharedCall
  | Method (m : String) : SharedCall
  | Domain (d : String) : SharedCall
  | Path (pp : List String) : SharedCall
  | Args (o : RangeOrder) (args : GoMap) : SharedCall
  | Payload (o : RangeOrder) (pl : GoMap) : SharedCall
  | Full : SharedCall

/-- The shared call as a call of package `request`. -/
def SharedCall.toCall : SharedCall → Call
  | .Secure => Call.Secure
  | .SetPaginationArgNames a b => Call.SetPaginationArgNames a b
  | .Pagination p n => Call.Pagination p n
  | .Method m => Call.Method m
  | .Domain d => Call.Domain d
  | .Path pp => Call.Path pp
  | .Args o args => Call.Args o args
  | .Payload o pl => Call.Payload o pl
  | .Full => Call.Full

/-- The builder of package `bounce` after one shared call. -/
def TopLevel.apply : SharedCall → TopLevel.URL → TopLevel.URL
  | .Secure, u => TopLevel.Secure u
  | .SetPaginationArgNames a b, u => TopLevel.SetPaginationArgNames a b u
  | .Pagination p n, u => TopLevel.Pagination p n u
  | .Method m, u => TopLevel.Method m u
  | .Domain d, u => TopLevel.Domain d u
  | .Path pp, u => TopLevel.Path pp u
  | .Args o args, u => TopLevel.Args o args u
  | .Payload o pl, u => TopLevel.Payload o pl u
  | .Full, u => (TopLevel.Full u).1

/-- The builder of package `bounce` after a sequence of shared calls. -/
def TopLevel.run (cs : List SharedCall) (u : TopLevel.URL) : TopLevel.URL :=
  cs.foldl (fun u c => TopLevel.apply c u) u

/-- The fields of a builder of package `request` that the builder of package
`bounce` has as well. -/
def forget (u : URL) : TopLevel.URL :=
  { ArgMap := u.ArgMap
    HeadersMap := u.HeadersMap
    PayloadMap := u.PayloadMap
    protocol := u.protocol
    domain := u.domain
    path := u.path
    pageNoArg := u.pageNoArg
    perPageNoArg := u.perPageNoArg
    pagination := u.pagination
    full := u.full
    argStr := u.argStr
    method := u.method
    payload := u.payload }

/-! # Theorems -/

/-! ## Strings -/

theorem length_pos_iff_ne (s : String) : 0 < s.length ↔ s ≠ "" := by
  cases s with
  | mk d =>
    cases d with
    | nil => simp [String.length]
    | cons a t =>
      simp only [String.length, List.length_cons, Nat.zero_lt_succ, true_iff]
      intro h
      have h' := congrArg String.data h
      simp at h'

theorem TrimSuffix_append (s t : String) : TrimSuffix (s ++ t) t = s := by
  unfold TrimSuffix
  have h : t.data.isSuffixOf (s ++ t).data = true := by
    rw [List.isSuffixOf_iff_suffix, String.data_append]
    exact List.suffix_append _ _
  rw [if_pos h]
  apply String.ext
  simp [String.data_append]

theorem foldl_append_init (f : String × String → String) (l : List (String × String))
    (a b : String) :
    l.foldl (fun s kv => s ++ f kv) (a ++ b) = a ++ l.foldl (fun s kv => s ++ f kv) b := by
  induction l generalizing b with
  | nil => rfl
  | cons x t ih => simp only [List.foldl_cons, String.append_assoc, ih]

/-! ## `Full` -/

theorem Full_url_eq (u : URL) :
    (Full u).2.2.1 = u.protocol ++ u.domain ++ u.path ++
      (if u.argStr = "" then (if u.pagination = "" then "" else "?" ++ u.pagination)
       else if u.pagination = "" then "?" ++ u.argStr
       else "?" ++ u.argStr ++ "&" ++ u.pagination) := by
  unfold Full
  by_cases hp : u.path = "" <;> by_cases ha : u.argStr = "" <;> by_cases hg : u.pagination = ""
    <;> simp [length_pos_iff_ne, hp, ha, hg, String.append_assoc]

theorem pick_short (o : RangeOrder) (i : Nat) (l : List (String × String))
    (h : l.length ≤ 1) : o.pick i l = l := by
  match l, h with
  | [], _ => exact List.perm_nil.1 (o.perm i [])
  | [a], _ => exact List.perm_singleton.1 (o.perm i [a])

theorem Args_short (o : RangeOrder) (args : GoMap) (u : URL)
    (h0 : args.entries.length ≤ 1)
    (h1 : (args.entries.foldl (fun (m : GoMap) (kv : String × String) => m.set kv.1 kv.2)
      u.ArgMap).entries.length ≤ 1) :
    Args o args u = Args RangeOrder.listed args u := by
  unfold Args
  simp only [pick_short o 0 _ h0, RangeOrder.listed, pick_short o 1 _ h1]

/-- C1: the URL returned by `Full` is `protocol ++ domain ++ path`, followed by
nothing, by `"?" ++ argStr`, by `"?" ++ pagination` or by
`"?" ++ argStr ++ "&" ++ pagination`, according to which of the query string
and the pagination string are empty; it is the string recorded in `full`; and
the chain `DefaultURL().Secure().Domain("example.com").Path("here", "there",
"everywhere").Args({"what": "that"}).Pagination(1, 100).Full()` returns
`https://example.com/here/there/everywhere?what=that&page=1&perPage=100`
whatever the iteration order of the maps. -/
theorem C1_Full_url :
    (∀ u : URL, (Full u).2.2.1 = u.protocol ++ u.domain ++ u.path ++
      (if u.argStr = "" then (if u.pagination = "" then "" else "?" ++ u.pagination)
       else if u.pagination = "" then "?" ++ u.argStr
       else "?" ++ u.argStr ++ "&" ++ u.pagination)) ∧
    (∀ u : URL, (Full u).1.full = (Full u).2.2.1) ∧
    (∀ o : RangeOrder,
      (Full (Pagination (.int 1) (.int 100) (Args o (GoMap.ofList [("what", "that")])
        (Path ["here", "there", "everywhere"] (Domain "example.com" (Secure DefaultURL)))))).2.2.1
      = "https://example.com/here/there/everywhere?what=that&page=1&perPage=100") := by
  refine ⟨Full_url_eq, fun u => rfl, fun o => ?_⟩
  rw [Args_short o _ _ (by decide) (by decide)]
  decide

/-! ## `Path` -/

theorem join_cons (a : String) (l : List String) :
    String.join (a :: l) = a ++ String.join l := by
  apply String.ext
  simp [String.join_eq, String.data_append]

theorem foldl_concat {α : Type} (f : α → String) (l : List α) (acc : String) :
    l.foldl (fun s x => s ++ f x) acc = acc ++ String.join (l.map f) := by
  induction l generalizing acc with
  | nil => simp [String.join]
  | cons x t ih => rw [List.foldl_cons, ih, List.map_cons, join_cons, String.append_assoc]

theorem join_append (l₁ l₂ : List String) :
    String.join (l₁ ++ l₂) = String.join l₁ ++ String.join l₂ := by
  induction l₁ with
  | nil => simp [String.join]
  | cons a t ih => rw [List.cons_append, join_cons, join_cons, ih, String.append_assoc]

theorem Path_path (pp : List String) (u : URL) :
    (Path pp u).path = u.path ++ String.join (pp.map (fun p => "/" ++ p)) := by
  have h := foldl_concat (fun p : String => "/" ++ p) pp ""
  simp only [← String.append_assoc] at h
  simp only [Path, h, String.empty_append]

theorem Full_fst (u : URL) :
    (Full u).1 = { u with
      full := urlOf u
      log := if u.verbose then u.log ++ ["full URL path  = " ++ urlOf u] else u.log } := by
  unfold Full urlOf URL.logIf
  by_cases hp : u.path = "" <;> by_cases ha : u.argStr = "" <;> by_cases hg : u.pagination = ""
    <;> simp [length_pos_iff_ne, hp, ha, hg, String.append_assoc]

theorem Full_snd (u : URL) : (Full u).2 = (u.method, urlOf u, u.payload) := by
  have h : (Full u).2 = ((Full u).1.method, (Full u).1.full, (Full u).1.payload) := rfl
  rw [h, Full_fst]

theorem Payload_eq (o : RangeOrder) (pl : GoMap) (u : URL) :
    Payload o pl u = { u with
      PayloadMap := (Payload o pl u).PayloadMap
      payload := (Payload o pl u).payload
      log := (Payload o pl u).log } := by
  unfold Payload
  by_cases hv : u.verbose = true <;> simp [hv]

theorem apply_path (c : Call) (u : URL) :
    (c.apply u).path = u.path ++ String.join ((segmentsOf [c]).map (fun p => "/" ++ p)) := by
  cases c
  case Payload o pl => rw [Call.apply, Payload_eq]; simp [segmentsOf, String.join]
  case Full => rw [Call.apply, Full_fst]; simp [segmentsOf, String.join]
  all_goals
    simp [Call.apply, segmentsOf, Path_path, VerboseOn, VerboseOff, Secure, UnSecure,
      SetPaginationArgNames, Pagination, Method, Domain, Args, String.join]

theorem segmentsOf_cons (c : Call) (cs : List Call) :
    segmentsOf (c :: cs) = segmentsOf [c] ++ segmentsOf cs := by
  cases c <;> simp [segmentsOf]

theorem run_path (cs : List Call) (u : URL) :
    (run cs u).path = u.path ++ String.join ((segmentsOf cs).map (fun p => "/" ++ p)) := by
  induction cs generalizing u with
  | nil => simp [run, segmentsOf, String.join]
  | cons c cs ih =>
    have h : run (c :: cs) u = run cs (c.apply u) := rfl
    rw [h, ih, apply_path, segmentsOf_cons c cs, List.map_append, join_append,
      String.append_assoc]

theorem segmentsOf_Path (pps : List (List String)) :
    segmentsOf (pps.map Call.Path) = pps.flatten := by
  induction pps with
  | nil => rfl
  | cons pp t ih => simp [segmentsOf, ih]

/-- C2: after any sequence of `Path` calls on a fresh builder the path is the
concatenation of `"/" ++ segment` over all segments passed, in call order and
argument order (also when calls of other methods come in between);
`Path(xs ++ ys)` leaves the path that `Path(xs)` followed by `Path(ys)` leaves;
`Path()` leaves the path unchanged; `Path("here", "there", "everywhere")` gives
`/here/there/everywhere`, and `Path("a", "b")` then `Path("c")` gives `/a/b/c`. -/
theorem C2_Path_concat :
    (∀ pps : List (List String),
      (run (pps.map Call.Path) DefaultURL).path =
        String.join (pps.flatten.map (fun p => "/" ++ p))) ∧
    (∀ cs : List Call,
      (run cs DefaultURL).path = String.join ((segmentsOf cs).map (fun p => "/" ++ p))) ∧
    (∀ (xs ys : List String) (u : URL),
      (Path (xs ++ ys) u).path = (Path ys (Path xs u)).path) ∧
    (∀ u : URL, (Path [] u).path = u.path) ∧
    (Path ["here", "there", "everywhere"] DefaultURL).path = "/here/there/everywhere" ∧
    (Path ["c"] (Path ["a", "b"] DefaultURL)).path = "/a/b/c" := by
  have hfresh : DefaultURL.path = "" := rfl
  refine ⟨fun pps => ?_, fun cs => ?_, fun xs ys u => ?_, fun u => ?_, by decide, by decide⟩
  · rw [run_path, segmentsOf_Path, hfresh, String.empty_append]
  · rw [run_path, hfresh, String.empty_append]
  · simp only [Path_path, List.map_append, join_append, String.append_assoc]
  · simp [Path_path, String.join]

/-! ## Maps -/

theorem getEntry_setEntry (k k' v : String) (l : List (String × String)) :
    getEntry k (setEntry k' v l) = if k' = k then some v else getEntry k l := by
  induction l with
  | nil => simp [setEntry, getEntry]
  | cons hd t ih =>
    obtain ⟨a, b⟩ := hd
    by_cases h : a = k'
    · subst h
      by_cases h2 : a = k <;> simp [setEntry, getEntry, h2]
    · by_cases h2 : k' = k
      · subst h2
        simp [setEntry, getEntry, h, ih]
      · have h4 : ¬ k = k' := fun e => h2 e.symm
        by_cases h3 : a = k <;> simp [setEntry, getEntry, h, h2, h3, h4, ih]

theorem getEntry_eq_none {k : String} {l : List (String × String)} :
    getEntry k l = none ↔ k ∉ l.map Prod.fst := by
  induction l with
  | nil => simp [getEntry]
  | cons hd t ih =>
    obtain ⟨a, b⟩ := hd
    by_cases h : a = k
    · simp [getEntry, h]
    · have h' : ¬ k = a := fun e => h e.symm
      simp [getEntry, h, h', ih]

theorem getEntry_eq_some {k v : String} {l : List (String × String)}
    (hl : (l.map Prod.fst).Nodup) : getEntry k l = some v ↔ (k, v) ∈ l := by
  induction l with
  | nil => simp [getEntry]
  | cons hd t ih =>
    obtain ⟨a, b⟩ := hd
    rw [List.map_cons, List.nodup_cons] at hl
    by_cases h : a = k
    · subst h
      have hno : ∀ w, (a, w) ∉ t := fun w hw => hl.1 (List.mem_map.2 ⟨(a, w), hw, rfl⟩)
      simp only [getEntry, if_true, Option.some.injEq, List.mem_cons, Prod.mk.injEq, true_and]
      constructor
      · intro e; exact Or.inl e.symm
      · rintro (e | e)
        · exact e.symm
        · exact absurd e (hno v)
    · have h' : ¬ k = a := fun e => h e.symm
      simp [getEntry, h, h', ih hl.2]

theorem getEntry_perm {l₁ l₂ : List (String × String)} (hp : l₁.Perm l₂)
    (hl : (l₂.map Prod.fst).Nodup) (k : String) : getEntry k l₁ = getEntry k l₂ := by
  have hl₁ : (l₁.map Prod.fst).Nodup := ((hp.map Prod.fst).nodup_iff).2 hl
  cases h : getEntry k l₂ with
  | none =>
    rw [getEntry_eq_none] at h ⊢
    intro hm
    exact h ((hp.map Prod.fst).mem_iff.1 hm)
  | some v =>
    rw [getEntry_eq_some hl] at h
    rw [getEntry_eq_some hl₁]
    exact hp.mem_iff.2 h

theorem perm_of_getEntry_eq {l₁ l₂ : List (String × String)}
    (h₁ : (l₁.map Prod.fst).Nodup) (h₂ : (l₂.map Prod.fst).Nodup)
    (h : ∀ k, getEntry k l₁ = getEntry k l₂) : l₁.Perm l₂ := by
  refine (List.perm_ext_iff_of_nodup (List.Nodup.of_map _ h₁) (List.Nodup.of_map _ h₂)).2 ?_
  rintro ⟨k, v⟩
  rw [← getEntry_eq_some h₁, ← getEntry_eq_some h₂, h k]

theorem get?_fold_set (k : String) (l : List (String × String)) (m : GoMap)
    (hl : (l.map Prod.fst).Nodup) :
    (l.foldl (fun (m : GoMap) (kv : String × String) => m.set kv.1 kv.2) m).get? k =
      match getEntry k l with
      | some v => some v
      | none => m.get? k := by
  induction l generalizing m with
  | nil => simp [getEntry]
  | cons hd t ih =>
    obtain ⟨a, b⟩ := hd
    rw [List.map_cons, List.nodup_cons] at hl
    rw [List.foldl_cons, ih _ hl.2]
    by_cases h : a = k
    · subst h
      have hn : getEntry a t = none := getEntry_eq_none.2 hl.1
      simp [hn, getEntry, GoMap.get?, GoMap.set, getEntry_setEntry]
    · cases ht : getEntry k t <;>
        simp [getEntry, h, ht, GoMap.get?, GoMap.set, getEntry_setEntry]

/-! ## `Args` -/

theorem foldl_sep_go (f : String × String → String) (sep : String)
    (t : List (String × String)) (acc : String) :
    t.foldl (fun s kv => s ++ f kv ++ sep) (acc ++ sep) =
      String.intercalate.go acc sep (t.map f) ++ sep := by
  induction t generalizing acc with
  | nil => rfl
  | cons x t ih =>
    rw [List.foldl_cons, List.map_cons, String.intercalate.go]
    have e : acc ++ sep ++ f x ++ sep = (acc ++ sep ++ f x) ++ sep := rfl
    rw [e, ih]

theorem foldl_sep (f : String × String → String) (sep : String)
    (x : String × String) (t : List (String × String)) (init : String) :
    (x :: t).foldl (fun s kv => s ++ f kv ++ sep) init =
      init ++ (sep.intercalate ((x :: t).map f) ++ sep) := by
  have h := foldl_sep_go f sep t (f x)
  have h2 := foldl_append_init (fun kv => f kv ++ sep) (x :: t) init ""
  simp only [← String.append_assoc, String.append_empty] at h2
  rw [h2, List.foldl_cons, String.empty_append, h]
  rfl

theorem render_args (es : List (String × String)) :
    TrimSuffix (es.foldl (fun (argStr : String) (kv : String × String) =>
      argStr ++ kv.1 ++ "=" ++ kv.2 ++ "&") "") "&" = "&".intercalate (es.map pairText) := by
  cases es with
  | nil => decide
  | cons x t =>
    have h := foldl_sep pairText "&" x t ""
    simp only [pairText, ← String.append_assoc, String.empty_append] at h
    rw [h]
    exact TrimSuffix_append _ _

theorem Args_argStr (o : RangeOrder) (args : GoMap) (u : URL) :
    (Args o args u).argStr =
      "&".intercalate ((o.pick 1 (Args o args u).ArgMap.entries).map pairText) := by
  simp only [Args, render_args]

theorem Args_get? (o : RangeOrder) (args : GoMap) (u : URL) (k : String) :
    (Args o args u).ArgMap.get? k =
      match args.get? k with
      | some v => some v
      | none => u.ArgMap.get? k := by
  have hn : ((o.pick 0 args.entries).map Prod.fst).Nodup :=
    (((o.perm 0 args.entries).map Prod.fst).nodup_iff).2 args.nodup
  have h := get?_fold_set k (o.pick 0 args.entries) u.ArgMap hn
  rw [getEntry_perm (o.perm 0 args.entries) args.nodup k] at h
  simpa only [Args] using h

theorem apply_args (c : Call) (u : URL) (h : Rendered u) (k : String) :
    Rendered (c.apply u) ∧
    (c.apply u).ArgMap.get? k =
      match lastSupplied (argsOf [c]) k with
      | some v => some v
      | none => u.ArgMap.get? k := by
  cases c
  case Args o args =>
    refine ⟨⟨o.pick 1 (Args o args u).ArgMap.entries, o.perm 1 _, Args_argStr o args u⟩, ?_⟩
    simp only [Call.apply, Args_get?, argsOf, lastSupplied]
  case Payload o pl =>
    rw [Call.apply, Payload_eq]
    exact ⟨h, by simp [argsOf, lastSupplied]⟩
  case Full =>
    rw [Call.apply, Full_fst]
    exact ⟨h, by simp [argsOf, lastSupplied]⟩
  all_goals
    exact ⟨h, by simp [argsOf, lastSupplied, Call.apply, VerboseOn, VerboseOff, Secure, UnSecure,
      SetPaginationArgNames, Pagination, Method, Domain, Path]⟩

theorem lastSupplied_argsOf_cons (c : Call) (cs : List Call) (k : String) :
    lastSupplied (argsOf (c :: cs)) k =
      match lastSupplied (argsOf cs) k with
      | some v => some v
      | none => lastSupplied (argsOf [c]) k := by
  cases c <;> simp only [argsOf, lastSupplied] <;> cases lastSupplied (argsOf cs) k <;> rfl

theorem run_args (cs : List Call) (u : URL) (h : Rendered u) (k : String) :
    Rendered (run cs u) ∧
    (run cs u).ArgMap.get? k =
      match lastSupplied (argsOf cs) k with
      | some v => some v
      | none => u.ArgMap.get? k := by
  induction cs generalizing u with
  | nil => exact ⟨h, rfl⟩
  | cons c cs ih =>
    have hr : run (c :: cs) u = run cs (c.apply u) := rfl
    obtain ⟨h1, h2⟩ := apply_args c u h k
    obtain ⟨h3, h4⟩ := ih (c.apply u) h1
    refine ⟨hr ▸ h3, ?_⟩
    rw [hr, h4, h2, lastSupplied_argsOf_cons c cs k]
    cases lastSupplied (argsOf cs) k <;> rfl

theorem Rendered_fresh : Rendered DefaultURL := ⟨[], List.Perm.refl _, rfl⟩

theorem argsOf_Args (cs : List (RangeOrder × GoMap)) :
    argsOf (cs.map (fun c => Call.Args c.1 c.2)) = cs.map Prod.snd := by
  induction cs with
  | nil => rfl
  | cons c t ih => simp [argsOf, ih]

theorem perm_three {α : Type} {a b c : α} {es : List α} (h : es.Perm [a, b, c]) :
    es ∈ [[a, b, c], [a, c, b], [b, a, c], [b, c, a], [c, a, b], [c, b, a]] := by
  rw [← List.mem_permutations] at h
  simp [List.permutations, List.permutationsAux, List.permutationsAux.rec,
    List.permutationsAux2] at h
  simp only [List.mem_cons, List.mem_singleton, List.not_mem_nil, or_false]
  tauto

/-- C3: after any sequence of `Args` calls on a fresh builder (also with calls
of other methods in between) the query string `argStr` is, for some ordering of
the entries of the accumulated argument map, the `&`-join of `key=value`; the
map holds every key once, with the value of the most recent call that supplied
it; the query string is empty when the map is empty (the map has an entry or
the query string is empty); and
`Args({what: that, where: there, when: then})` on a fresh builder gives one of
the six permutations of `what=that&where=there&when=then`. -/
theorem C3_Args_rendered :
    (∀ cs : List (RangeOrder × GoMap),
      (∃ es : List (String × String),
        es.Perm (run (cs.map (fun c => Call.Args c.1 c.2)) DefaultURL).ArgMap.entries ∧
        (run (cs.map (fun c => Call.Args c.1 c.2)) DefaultURL).argStr =
          "&".intercalate (es.map (fun kv => kv.1 ++ "=" ++ kv.2))) ∧
      (run (cs.map (fun c => Call.Args c.1 c.2)) DefaultURL).ArgMap.keys.Nodup ∧
      (∀ k : String, (run (cs.map (fun c => Call.Args c.1 c.2)) DefaultURL).ArgMap.get? k =
        lastSupplied (cs.map Prod.snd) k) ∧
      ((run (cs.map (fun c => Call.Args c.1 c.2)) DefaultURL).ArgMap.entries ≠ [] ∨
        (run (cs.map (fun c => Call.Args c.1 c.2)) DefaultURL).argStr = "")) ∧
    (∀ cs : List Call,
      (∃ es : List (String × String),
        es.Perm (run cs DefaultURL).ArgMap.entries ∧
        (run cs DefaultURL).argStr = "&".intercalate (es.map (fun kv => kv.1 ++ "=" ++ kv.2))) ∧
      (∀ k : String, (run cs DefaultURL).ArgMap.get? k = lastSupplied (argsOf cs) k)) ∧
    (∀ o : RangeOrder,
      (Args o (GoMap.ofList [("what", "that"), ("where", "there"), ("when", "then")])
        DefaultURL).argStr ∈
        ["what=that&where=there&when=then", "what=that&when=then&where=there",
         "where=there&what=that&when=then", "where=there&when=then&what=that",
         "when=then&what=that&where=there", "when=then&where=there&what=that"]) := by
  have general : ∀ cs : List Call,
      (∃ es : List (String × String),
        es.Perm (run cs DefaultURL).ArgMap.entries ∧
        (run cs DefaultURL).argStr = "&".intercalate (es.map (fun kv => kv.1 ++ "=" ++ kv.2))) ∧
      (∀ k : String, (run cs DefaultURL).ArgMap.get? k = lastSupplied (argsOf cs) k) := by
    intro cs
    refine ⟨(run_args cs DefaultURL Rendered_fresh "").1, fun k => ?_⟩
    rw [(run_args cs DefaultURL Rendered_fresh k).2]
    cases lastSupplied (argsOf cs) k <;> rfl
  refine ⟨fun cs => ?_, general, fun o => ?_⟩
  · obtain ⟨⟨es, hp, he⟩, hk⟩ := general (cs.map (fun c => Call.Args c.1 c.2))
    refine ⟨⟨es, hp, he⟩, GoMap.nodup _, fun k => ?_, ?_⟩
    · rw [hk k, argsOf_Args]
    · by_cases hnil : (run (cs.map (fun c => Call.Args c.1 c.2)) DefaultURL).ArgMap.entries = []
      · right
        rw [hnil] at hp
        rw [he, List.perm_nil.1 hp]
        rfl
      · exact Or.inl hnil
  · have hperm : (Args o (GoMap.ofList [("what", "that"), ("where", "there"), ("when", "then")])
        DefaultURL).ArgMap.entries.Perm
          [("what", "that"), ("where", "there"), ("when", "then")] := by
      refine perm_of_getEntry_eq (GoMap.nodup _) (by decide) (fun k => ?_)
      have h := Args_get? o (GoMap.ofList [("what", "that"), ("where", "there"), ("when", "then")])
        DefaultURL k
      rw [GoMap.get?] at h
      rw [h]
      have hd : DefaultURL.ArgMap.get? k = none := rfl
      rw [hd]
      have hm : (GoMap.ofList [("what", "that"), ("where", "there"), ("when", "then")]).get? k =
          getEntry k [("what", "that"), ("where", "there"), ("when", "then")] := rfl
      rw [hm]
      cases getEntry k [("what", "that"), ("where", "there"), ("when", "then")] <;> rfl
    have hes := perm_three ((o.perm 1 _).trans hperm)
    rw [Args_argStr]
    simp only [List.mem_cons, List.mem_singleton, List.not_mem_nil, or_false] at hes
    rcases hes with h | h | h | h | h | h <;> rw [h] <;> decide

/-! ## `Pagination` -/

theorem apply_argNames (c : Call) (u : URL) :
    ((c.apply u).pageNoArg, (c.apply u).perPageNoArg) =
      (lastArgNames [c]).getD (u.pageNoArg, u.perPageNoArg) := by
  cases c
  case Payload o pl => rw [Call.apply, Payload_eq]; rfl
  case Full => rw [Call.apply, Full_fst]; rfl
  all_goals rfl

theorem lastArgNames_cons (c : Call) (cs : List Call) :
    lastArgNames (c :: cs) =
      match lastArgNames cs with
      | some names => some names
      | none => lastArgNames [c] := by
  cases c <;> simp only [lastArgNames]

theorem run_argNames (cs : List Call) (u : URL) :
    ((run cs u).pageNoArg, (run cs u).perPageNoArg) =
      (lastArgNames cs).getD (u.pageNoArg, u.perPageNoArg) := by
  induction cs generalizing u with
  | nil => rfl
  | cons c cs ih =>
    have hr : run (c :: cs) u = run cs (c.apply u) := rfl
    rw [hr, ih, apply_argNames, lastArgNames_cons c cs]
    cases lastArgNames cs <;> rfl

/-- C5: `Pagination(p, n)` sets the pagination string to
`pageKey=render(p)&perPageKey=render(n)` with the keys the builder holds at the
time of the call; after any sequence of calls on a fresh builder these are the
arguments of the most recent `SetPaginationArgNames` call, or `page` and
`perPage` when there was none; an integer is rendered in decimal;
`Pagination(1, 100)` gives `page=1&perPage=100` and `Pagination(63, 80)` gives
`page=63&perPage=80` on a fresh builder. -/
theorem C5_Pagination_string :
    (∀ (p n : Value) (u : URL), (Pagination p n u).pagination =
      u.pageNoArg ++ "=" ++ p.format ++ "&" ++ u.perPageNoArg ++ "=" ++ n.format) ∧
    (∀ (cs : List Call) (p n : Value), (Pagination p n (run cs DefaultURL)).pagination =
      ((lastArgNames cs).getD ("page", "perPage")).1 ++ "=" ++ p.format ++ "&" ++
        ((lastArgNames cs).getD ("page", "perPage")).2 ++ "=" ++ n.format) ∧
    (∀ (a b : String) (p n : Value) (u : URL),
      (Pagination p n (SetPaginationArgNames a b u)).pagination =
        a ++ "=" ++ p.format ++ "&" ++ b ++ "=" ++ n.format) ∧
    (∀ i : Nat, (Value.int i).format = Nat.repr i) ∧
    (Pagination (.int 1) (.int 100) DefaultURL).pagination = "page=1&perPage=100" ∧
    (Pagination (.int 63) (.int 80) DefaultURL).pagination = "page=63&perPage=80" ∧
    (Pagination (.int 1) (.int 100)
      (SetPaginationArgNames "current" "amount" DefaultURL)).pagination
        = "current=1&amount=100" := by
  refine ⟨fun p n u => rfl, fun cs p n => ?_, fun a b p n u => rfl, fun i => rfl,
    by decide, by decide, by decide⟩
  have h := run_argNames cs DefaultURL
  have h1 : (run cs DefaultURL).pageNoArg = ((lastArgNames cs).getD ("page", "perPage")).1 :=
    congrArg Prod.fst h
  have h2 : (run cs DefaultURL).perPageNoArg = ((lastArgNames cs).getD ("page", "perPage")).2 :=
    congrArg Prod.snd h
  rw [← h1, ← h2]
  rfl

/-! ## `Full` is idempotent -/

theorem urlOf_Full (u : URL) : urlOf (Full u).1 = urlOf u := by
  rw [Full_fst]; rfl

/-- C6: `Full` called twice in a row returns the same method, the same URL and
the same body both times, and `Full` changes no field of the builder other than
`full` (and writes one log line when `verbose` is on): scheme, host, path,
argument map and string, pagination, payload map, headers and method are
unchanged. -/
theorem C6_Full_idempotent :
    (∀ u : URL, (Full (Full u).1).2 = (Full u).2) ∧
    (∀ u : URL, (Full u).1 = { u with full := (Full u).2.2.1, log := (Full u).1.log }) ∧
    (∀ u : URL, (Full (Full u).1).1 =
      { (Full u).1 with log := (Full (Full u).1).1.log }) ∧
    (∀ u : URL, (Full (VerboseOff u)).1 =
      { VerboseOff u with full := (Full (VerboseOff u)).2.2.1 }) := by
  refine ⟨fun u => ?_, fun u => ?_, fun u => ?_, fun u => ?_⟩
  · rw [Full_snd, Full_snd, urlOf_Full, Full_fst]
  · rw [Full_snd, Full_fst]
  · rw [Full_fst (Full u).1, urlOf_Full, Full_fst]
  · rw [Full_snd, Full_fst]; rfl

/-! ## `DefaultURL` -/

/-- C7: `DefaultURL` returns a builder with protocol `http://`, page key
`page`, per-page key `perPage`, method `GET`, empty domain, path, query string
and pagination string, empty argument, header and payload maps and `verbose`
off; `Full` on it returns method `GET`, URL `http://` and no body. -/
theorem C7_DefaultURL :
    DefaultURL.protocol = "http://" ∧ DefaultURL.pageNoArg = "page" ∧
    DefaultURL.perPageNoArg = "perPage" ∧ DefaultURL.method = "GET" ∧
    DefaultURL.domain = "" ∧ DefaultURL.path = "" ∧ DefaultURL.argStr = "" ∧
    DefaultURL.pagination = "" ∧ DefaultURL.ArgMap.entries = [] ∧
    DefaultURL.HeadersMap.entries = [] ∧ DefaultURL.PayloadMap.entries = [] ∧
    DefaultURL.verbose = false ∧ DefaultURL.payload = none ∧
    (Full DefaultURL).2 = ("GET", "http://", none) := by
  refine ⟨rfl, rfl, rfl, rfl, rfl, rfl, rfl, rfl, rfl, rfl, rfl, rfl, rfl, by decide⟩

/-! ## `Method` -/

theorem apply_method (c : Call) (u : URL) :
    (c.apply u).method = (lastMethod [c]).getD u.method := by
  cases c
  case Payload o pl => rw [Call.apply, Payload_eq]; rfl
  case Full => rw [Call.apply, Full_fst]; rfl
  all_goals rfl

theorem lastMethod_cons (c : Call) (cs : List Call) :
    lastMethod (c :: cs) =
      match lastMethod cs with
      | some m => some m
      | none => lastMethod [c] := by
  cases c <;> simp only [lastMethod]

theorem run_method (cs : List Call) (u : URL) :
    (run cs u).method = (lastMethod cs).getD u.method := by
  induction cs generalizing u with
  | nil => rfl
  | cons c cs ih =>
    have hr : run (c :: cs) u = run cs (c.apply u) := rfl
    rw [hr, ih, apply_method, lastMethod_cons c cs]
    cases lastMethod cs <;> rfl

/-- C8: for every string `m` and every builder, `Method(m)` sets the method to
`m` and changes no other field (it writes one log line when `verbose` is on);
the method returned by `Full` after any sequence of calls on a fresh builder is
the argument of the most recent `Method` call, or `GET` when there was none;
the empty string and a string that is no HTTP verb are accepted like any
other. -/
theorem C8_Method :
    (∀ (m : String) (u : URL), Method m u =
      { u with method := m, log := if u.verbose then u.log ++ ["method = " ++ m] else u.log }) ∧
    (∀ (m : String) (u : URL), (Full (Method m u)).2.1 = m) ∧
    (∀ cs : List Call, (Full (run cs DefaultURL)).2.1 = (lastMethod cs).getD "GET") ∧
    (Full (Method "" DefaultURL)).2.1 = "" ∧
    (Full (Method "no verb" DefaultURL)).2.1 = "no verb" := by
  refine ⟨fun m u => rfl, fun m u => ?_, fun cs => ?_, by decide, by decide⟩
  · rw [Full_snd]; rfl
  · rw [Full_snd]
    exact run_method cs DefaultURL

/-! ## `Secure` and `UnSecure` -/

theorem apply_protocol (c : Call) (u : URL) :
    (c.apply u).protocol =
      match lastScheme [c] with
      | some true => "https://"
      | some false => "http://"
      | none => u.protocol := by
  cases c
  case Payload o pl => rw [Call.apply, Payload_eq]; rfl
  case Full => rw [Call.apply, Full_fst]; rfl
  all_goals rfl

theorem lastScheme_cons (c : Call) (cs : List Call) :
    lastScheme (c :: cs) =
      match lastScheme cs with
      | some b => some b
      | none => lastScheme [c] := by
  cases c <;> simp only [lastScheme]

theorem run_protocol (cs : List Call) (u : URL) :
    (run cs u).protocol =
      match lastScheme cs with
      | some true => "https://"
      | some false => "http://"
      | none => u.protocol := by
  induction cs generalizing u with
  | nil => rfl
  | cons c cs ih =>
    have hr : run (c :: cs) u = run cs (c.apply u) := rfl
    rw [hr, ih, apply_protocol, lastScheme_cons c cs]
    rcases lastScheme cs with _ | b
    · rfl
    · cases b <;> rfl

/-- C9: the scheme is last-set-wins: after any sequence of calls on a fresh
builder the URL returned by `Full` starts with `https://` when the most recent
scheme call was `Secure` and with `http://` when it was `UnSecure` or when
there was no scheme call; `Secure` and `UnSecure` change no field other than
the protocol (each writes one log line when `verbose` is on), and a second
`Secure` (`UnSecure`) in a row changes no field of the builder. -/
theorem C9_scheme_last_wins :
    (∀ cs : List Call, ∃ rest : String, (Full (run cs DefaultURL)).2.2.1 =
      (match lastScheme cs with
        | some true => "https://"
        | some false => "http://"
        | none => "http://") ++ rest) ∧
    (∀ u : URL, Secure u =
      { u with
        protocol := "https://"
        log := if u.verbose then u.log ++ ["https = on"] else u.log }) ∧
    (∀ u : URL, UnSecure u =
      { u with
        protocol := "http://"
        log := if u.verbose then u.log ++ ["https = off"] else u.log }) ∧
    (∀ u : URL, Secure (Secure u) = { Secure u with log := (Secure (Secure u)).log }) ∧
    (∀ u : URL, UnSecure (UnSecure u) =
      { UnSecure u with log := (UnSecure (UnSecure u)).log }) ∧
    (∀ u : URL, Secure (Secure (VerboseOff u)) = Secure (VerboseOff u)) ∧
    (∀ u : URL, UnSecure (UnSecure (VerboseOff u)) = UnSecure (VerboseOff u)) ∧
    (Full (UnSecure (Secure DefaultURL))).2.2.1 = "http://" ∧
    (Full (Secure (UnSecure DefaultURL))).2.2.1 = "https://" := by
  refine ⟨fun cs => ?_, fun u => rfl, fun u => rfl, fun u => rfl, fun u => rfl, fun u => rfl,
    fun u => rfl, by decide, by decide⟩
  rw [Full_snd]
  refine ⟨(run cs DefaultURL).domain ++ (run cs DefaultURL).path ++
      (if (run cs DefaultURL).argStr = "" then
        (if (run cs DefaultURL).pagination = "" then "" else "?" ++ (run cs DefaultURL).pagination)
       else if (run cs DefaultURL).pagination = "" then "?" ++ (run cs DefaultURL).argStr
       else "?" ++ (run cs DefaultURL).argStr ++ "&" ++ (run cs DefaultURL).pagination), ?_⟩
  have h := run_protocol cs DefaultURL
  have hd : DefaultURL.protocol = "http://" := rfl
  rw [hd] at h
  show urlOf (run cs DefaultURL) = _
  rw [urlOf, h]
  simp only [String.append_assoc]

/-! ## `ConsumeAPI` -/

/-- C10: a request that cannot be constructed is reported as success. On the
builder `DefaultURL().Domain("example.com").Method("BAD METHOD")`, whose method
`http.NewRequest` rejects, `ConsumeAPI` returns no error although no request
was constructed or sent and the destination is left as it was; with the method
`GET` the same call sends the request and fills the destination. For all collaborators, a call
that returns no error either failed to construct the request or sent it, read
the body of the response and decoded it into the destination. -/
theorem C10_ConsumeAPI_construction_failure :
    (strictNet.NewRequest "BAD METHOD" "http://example.com" none =
      .error ⟨"net/http: invalid method"⟩) ∧
    (Full (Method "BAD METHOD" (Domain "example.com" DefaultURL))).2 =
      ("BAD METHOD", "http://example.com", none) ∧
    (ConsumeAPI strictNet RangeOrder.listed "untouched"
      (Method "BAD METHOD" (Domain "example.com" DefaultURL))).err = none ∧
    (ConsumeAPI strictNet RangeOrder.listed "untouched"
      (Method "BAD METHOD" (Domain "example.com" DefaultURL))).sent = none ∧
    (ConsumeAPI strictNet RangeOrder.listed "untouched"
      (Method "BAD METHOD" (Domain "example.com" DefaultURL))).dest = "untouched" ∧
    (ConsumeAPI strictNet RangeOrder.listed "untouched"
      (Domain "example.com" DefaultURL)).err = none ∧
    (ConsumeAPI strictNet RangeOrder.listed "untouched" (Domain "example.com" DefaultURL)).sent =
      some { method := "GET", url := "http://example.com", body := none, header := [] } ∧
    (ConsumeAPI strictNet RangeOrder.listed "untouched"
      (Domain "example.com" DefaultURL)).dest = "\x7b\x7d" ∧
    (∀ (ρ δ : Type) (T : Collaborators ρ δ) (o : RangeOrder) (dest : δ) (u : URL),
      (∃ e, (ConsumeAPI T o dest u).err = some e) ∨
      (∃ e, T.NewRequest (Full u).2.1 (Full u).2.2.1 (Full u).2.2.2 = .error e) ∨
      (∃ req res body, (ConsumeAPI T o dest u).sent = some req ∧ (T.Do req).1 = .ok res ∧
        T.ReadAll res = .ok body ∧
        T.Unmarshal body dest = ((ConsumeAPI T o dest u).dest, none))) := by
  refine ⟨rfl, by decide, by decide, by decide, by decide, by decide, by decide, by decide, ?_⟩
  intro ρ δ T o dest u
  unfold ConsumeAPI
  cases hreq : T.NewRequest (Full u).2.1 (Full u).2.2.1 (Full u).2.2.2 with
  | error e => exact Or.inr (Or.inl ⟨e, rfl⟩)
  | ok req =>
    simp only [hreq]
    cases hdo : (T.Do ((o.pick 0 (Full u).1.HeadersMap.entries).foldl
      (fun (req : Request) (kv : String × String) => req.addHeader kv.1 kv.2) req)).1 with
    | error e => exact Or.inl ⟨e, by simp only [hdo]⟩
    | ok res =>
      simp only [hdo]
      cases hread : T.ReadAll res with
      | error e => exact Or.inl ⟨e, rfl⟩
      | ok body =>
        simp only []
        cases hum : (T.Unmarshal body dest).2 with
        | some e => exact Or.inl ⟨e, by simp only [hum]⟩
        | none =>
          refine Or.inr (Or.inr ⟨_, res, body, by simp only [hum], hdo, hread, ?_⟩)
          simp only [hum]
          exact Prod.ext rfl hum


/-! ## `Payload` and the JSON decoder -/

theorem render_payload (es : List (String × String)) :
    TrimSuffix (es.foldl (fun (PLStr : String) (kv : String × String) =>
      PLStr ++ "\"" ++ kv.1 ++ "\":\"" ++ kv.2 ++ "\",") "\x7b") "," ++ "\x7d" =
      "\x7b" ++ ",".intercalate (es.map memberText) ++ "\x7d" := by
  cases es with
  | nil => decide
  | cons x t =>
    have h := foldl_sep memberText "," x t "\x7b"
    have e : ∀ (s : String) (kv : String × String),
        s ++ "\"" ++ kv.1 ++ "\":\"" ++ kv.2 ++ "\"," = s ++ memberText kv ++ "," := by
      intro s kv
      apply String.ext
      simp [memberText, String.data_append]
    simp only [e]
    rw [h, ← String.append_assoc, TrimSuffix_append]

theorem Payload_payload (o : RangeOrder) (pl : GoMap) (u : URL) :
    (Payload o pl u).payload = some (NewReader ("\x7b" ++ ",".intercalate
      ((o.pick 1 (Payload o pl u).PayloadMap.entries).map memberText) ++ "\x7d")) := by
  unfold Payload
  by_cases hv : u.verbose = true <;> simp [hv, render_payload]

theorem Payload_get? (o : RangeOrder) (pl : GoMap) (u : URL) (k : String) :
    (Payload o pl u).PayloadMap.get? k =
      match pl.get? k with
      | some v => some v
      | none => u.PayloadMap.get? k := by
  have hn : ((o.pick 0 pl.entries).map Prod.fst).Nodup :=
    (((o.perm 0 pl.entries).map Prod.fst).nodup_iff).2 pl.nodup
  have h := get?_fold_set k (o.pick 0 pl.entries) u.PayloadMap hn
  rw [getEntry_perm (o.perm 0 pl.entries) pl.nodup k] at h
  unfold Payload
  by_cases hv : u.verbose = true <;> simpa [hv] using h

theorem ofList_get? (es : List (String × String)) (hn : (es.map Prod.fst).Nodup)
    (k : String) : (GoMap.ofList es).get? k = getEntry k es := by
  rw [GoMap.ofList, get?_fold_set k es GoMap.make hn]
  cases getEntry k es <;> rfl

/-! ### UTF-8 -/

theorem isCont_iff (b : Nat) : isCont b = true ↔ 128 ≤ b ∧ b ≤ 191 := by
  simp only [isCont, Bool.and_eq_true, decide_eq_true_eq]

theorem decodeRune_one (b0 : Nat) (tail : List Nat) (h : b0 < 128) :
    decodeRune (b0 :: tail) = (b0, 1) := by
  show (if b0 < 128 then _ else _) = _
  rw [if_pos h]

theorem decodeRune_two (b0 b1 : Nat) (tail : List Nat) (h0 : 194 ≤ b0 ∧ b0 ≤ 223)
    (h1 : 128 ≤ b1 ∧ b1 ≤ 191) :
    decodeRune (b0 :: b1 :: tail) = ((b0 - 192) * 64 + (b1 - 128), 2) := by
  rw [decodeRune, if_neg (by omega), if_pos h0]
  show (if isCont b1 = true then _ else _) = _
  rw [if_pos ((isCont_iff b1).2 h1)]

theorem decodeRune_three (b0 b1 b2 : Nat) (tail : List Nat) (h0 : 224 ≤ b0 ∧ b0 ≤ 239)
    (h1 : (if b0 = 224 then 160 else 128) ≤ b1 ∧ b1 ≤ (if b0 = 237 then 159 else 191))
    (h2 : 128 ≤ b2 ∧ b2 ≤ 191) :
    decodeRune (b0 :: b1 :: b2 :: tail) =
      ((b0 - 224) * 4096 + (b1 - 128) * 64 + (b2 - 128), 3) := by
  rw [decodeRune, if_neg (by omega), if_neg (by omega), if_pos h0]
  show (if _ ∧ _ ∧ isCont b2 = true then _ else _) = _
  rw [if_pos ⟨h1.1, h1.2, (isCont_iff b2).2 h2⟩]

theorem decodeRune_four (b0 b1 b2 b3 : Nat) (tail : List Nat) (h0 : 240 ≤ b0 ∧ b0 ≤ 244)
    (h1 : (if b0 = 240 then 144 else 128) ≤ b1 ∧ b1 ≤ (if b0 = 244 then 143 else 191))
    (h2 : 128 ≤ b2 ∧ b2 ≤ 191) (h3 : 128 ≤ b3 ∧ b3 ≤ 191) :
    decodeRune (b0 :: b1 :: b2 :: b3 :: tail) =
      ((b0 - 240) * 262144 + (b1 - 128) * 4096 + (b2 - 128) * 64 + (b3 - 128), 4) := by
  rw [decodeRune, if_neg (by omega), if_neg (by omega), if_neg (by omega), if_pos h0]
  show (if _ ∧ _ ∧ isCont b2 = true ∧ isCont b3 = true then _ else _) = _
  rw [if_pos ⟨h1.1, h1.2, (isCont_iff b2).2 h2, (isCont_iff b3).2 h3⟩]

theorem isScalar_iff (r : Nat) :
    isScalar r = true ↔ r < 55296 ∨ (57344 ≤ r ∧ r < 1114112) := by
  simp only [isScalar, Bool.or_eq_true, Bool.and_eq_true, decide_eq_true_eq]

theorem decodeRune_encodeRune (r : Nat) (h : isScalar r = true) (tail : List Nat) :
    decodeRune (encodeRune r ++ tail) = (r, (encodeRune r).length) := by
  rw [isScalar_iff] at h
  unfold encodeRune
  by_cases h1 : r < 128
  · rw [if_pos h1]
    exact decodeRune_one r tail h1
  · rw [if_neg h1]
    by_cases h2 : r < 2048
    · rw [if_pos h2]
      refine (decodeRune_two _ _ tail (by omega) (by omega)).trans ?_
      refine Prod.ext ?_ rfl
      show (192 + r / 64 - 192) * 64 + (128 + r % 64 - 128) = r
      omega
    · rw [if_neg h2, if_neg (by omega)]
      by_cases h3 : r < 65536
      · rw [if_pos h3]
        refine (decodeRune_three _ _ _ tail (by omega) ?_ (by omega)).trans ?_
        · constructor
          · split <;> omega
          · split <;> omega
        · refine Prod.ext ?_ rfl
          show (224 + r / 4096 - 224) * 4096 + (128 + r / 64 % 64 - 128) * 64 +
            (128 + r % 64 - 128) = r
          omega
      · rw [if_neg h3]
        refine (decodeRune_four _ _ _ _ tail (by omega) ?_ (by omega) (by omega)).trans ?_
        · constructor
          · split <;> omega
          · split <;> omega
        · refine Prod.ext ?_ rfl
          show (240 + r / 262144 - 240) * 262144 + (128 + r / 4096 % 64 - 128) * 4096 +
            (128 + r / 64 % 64 - 128) * 64 + (128 + r % 64 - 128) = r
          omega

theorem encodeRune_head (r : Nat) (h : isScalar r = true) (h32 : 32 ≤ r) (hq : r ≠ 34)
    (hb : r ≠ 92) :
    ∃ b more, encodeRune r = b :: more ∧ b ≠ 34 ∧ b ≠ 92 ∧ 32 ≤ b ∧
      ∀ c ∈ b :: more, c < 256 := by
  rw [isScalar_iff] at h
  unfold encodeRune
  by_cases h1 : r < 128
  · rw [if_pos h1]
    refine ⟨r, [], rfl, hq, hb, h32, ?_⟩
    intro c hc
    simp only [List.mem_singleton] at hc
    omega
  · rw [if_neg h1]
    by_cases h2 : r < 2048
    · rw [if_pos h2]
      refine ⟨_, _, rfl, by omega, by omega, by omega, ?_⟩
      intro c hc
      simp only [List.mem_cons, List.mem_singleton, List.not_mem_nil, or_false] at hc
      omega
    · rw [if_neg h2, if_neg (by omega)]
      by_cases h3 : r < 65536
      · rw [if_pos h3]
        refine ⟨_, _, rfl, by omega, by omega, by omega, ?_⟩
        intro c hc
        simp only [List.mem_cons, List.mem_singleton, List.not_mem_nil, or_false] at hc
        omega
      · rw [if_neg h3]
        refine ⟨_, _, rfl, by omega, by omega, by omega, ?_⟩
        intro c hc
        simp only [List.mem_cons, List.mem_singleton, List.not_mem_nil, or_false] at hc
        omega

theorem utf8_cons (r : Nat) (rs : List Nat) : utf8 (r :: rs) = encodeRune r ++ utf8 rs := by
  simp [utf8]

/-! ### Strings as bytes -/

theorem toNat_ofNat_byte (b : Nat) (h : b < 256) : (Char.ofNat b).toNat = b := by
  have hv : b.isValidChar := Or.inl (by omega)
  simp only [Char.ofNat, hv, dite_true, Char.ofNatAux, Char.toNat]
  rfl

theorem toBytes_ofBytes (bs : List Nat) (h : ∀ b ∈ bs, b < 256) :
    toBytes (ofBytes bs) = bs := by
  induction bs with
  | nil => rfl
  | cons b t ih =>
    have hb := h b (List.mem_cons_self b t)
    have ht : ∀ c ∈ t, c < 256 := fun c hc => h c (List.mem_cons_of_mem b hc)
    have e : toBytes (ofBytes (b :: t)) = (Char.ofNat b).toNat :: toBytes (ofBytes t) := rfl
    rw [e, ih ht, toNat_ofNat_byte b hb]

theorem ofBytes_toBytes (s : String) : ofBytes (toBytes s) = s := by
  apply String.ext
  simp only [ofBytes, toBytes, List.map_map]
  have e : (Char.ofNat ∘ Char.toNat) = id := by
    funext c
    exact Char.ofNat_toNat c
  rw [e, List.map_id]

theorem toBytes_append (a b : String) : toBytes (a ++ b) = toBytes a ++ toBytes b := by
  simp only [toBytes, String.data_append, List.map_append]

theorem memberText_bytes (kv : String × String) : toBytes (memberText kv) = memberBytes kv := by
  have e1 : toBytes "\"" = [34] := rfl
  have e2 : toBytes "\":\"" = [34, 58, 34] := rfl
  simp only [memberText, memberBytes, toBytes_append, e1, e2, List.append_assoc,
    List.singleton_append, List.cons_append, List.nil_append]

theorem go_bytes (t : List (String × String)) (acc : String) :
    toBytes (String.intercalate.go acc "," (t.map memberText)) ++ [125] =
      toBytes acc ++ tailBytes t := by
  induction t generalizing acc with
  | nil => rfl
  | cons y t ih =>
    rw [List.map_cons, String.intercalate.go, ih, toBytes_append, toBytes_append,
      memberText_bytes, tailBytes]
    have e : toBytes "," = [44] := rfl
    rw [e]
    simp only [List.append_assoc, List.singleton_append, List.cons_append, List.nil_append]

theorem payload_bytes (x : String × String) (t : List (String × String)) :
    toBytes ("\x7b" ++ ",".intercalate ((x :: t).map memberText) ++ "\x7d") =
      123 :: (memberBytes x ++ tailBytes t) := by
  have h := go_bytes t (memberText x)
  rw [memberText_bytes] at h
  have e : ",".intercalate ((x :: t).map memberText) =
      String.intercalate.go (memberText x) "," (t.map memberText) := rfl
  rw [e, toBytes_append, toBytes_append]
  have hb : toBytes "\x7d" = [125] := rfl
  have ha : toBytes "\x7b" = [123] := rfl
  rw [hb, ha, List.append_assoc, h]
  rfl

theorem utf8_lt (rs : List Nat) (h : CleanRunes rs) : ∀ b ∈ utf8 rs, b < 256 := by
  induction rs with
  | nil => intro b hb; cases hb
  | cons r rs ih =>
    intro b hb
    obtain ⟨h1, h2, h3, h4⟩ := h r (List.mem_cons_self r rs)
    rw [utf8_cons, List.mem_append] at hb
    rcases hb with hb | hb
    · obtain ⟨c, more, he, _, _, _, hlt⟩ := encodeRune_head r h1 h4 h2 h3
      rw [he] at hb
      exact hlt b hb
    · exact ih (fun r' hr' => h r' (List.mem_cons_of_mem r hr')) b hb

theorem length_utf8 (rs : List Nat) (h : CleanRunes rs) : rs.length ≤ (utf8 rs).length := by
  induction rs with
  | nil => exact Nat.le_refl _
  | cons r rs ih =>
    obtain ⟨h1, h2, h3, h4⟩ := h r (List.mem_cons_self r rs)
    obtain ⟨c, more, he, _⟩ := encodeRune_head r h1 h4 h2 h3
    have := ih (fun r' hr' => h r' (List.mem_cons_of_mem r hr'))
    rw [utf8_cons, he]
    simp only [List.length_cons, List.length_append]
    omega

theorem readString_step (fuel b : Nat) (bs acc : List Nat) (h1 : b ≠ 34) (h2 : b ≠ 92)
    (h3 : 32 ≤ b) :
    readString (fuel + 1) (b :: bs) acc =
      readString fuel ((b :: bs).drop (decodeRune (b :: bs)).2)
        ((encodeRune (decodeRune (b :: bs)).1).reverse ++ acc) := by
  show (if b = 34 then _ else _) = _
  rw [if_neg h1, if_neg h2, if_neg (Nat.not_lt.2 h3)]

theorem readString_clean (rs : List Nat) (h : CleanRunes rs) :
    ∀ (fuel : Nat) (rest acc : List Nat), rs.length < fuel →
      readString fuel (utf8 rs ++ 34 :: rest) acc = some (acc.reverse ++ utf8 rs, rest) := by
  induction rs with
  | nil =>
    intro fuel rest acc hf
    obtain ⟨f, rfl⟩ : ∃ f, fuel = f + 1 :=
      ⟨fuel - 1, by simp only [List.length_nil] at hf; omega⟩
    simp [utf8, readString]
  | cons r rs ih =>
    intro fuel rest acc hf
    obtain ⟨f, rfl⟩ : ∃ f, fuel = f + 1 := ⟨fuel - 1, by omega⟩
    obtain ⟨h1, h2, h3, h4⟩ := h r (List.mem_cons_self r rs)
    have hrs : CleanRunes rs := fun r' hr' => h r' (List.mem_cons_of_mem r hr')
    obtain ⟨b, more, he, hb1, hb2, hb3, _⟩ := encodeRune_head r h1 h4 h2 h3
    have hd := decodeRune_encodeRune r h1 (utf8 rs ++ 34 :: rest)
    have hf' : rs.length < f := by simp only [List.length_cons] at hf; omega
    have e : utf8 (r :: rs) ++ 34 :: rest = b :: (more ++ (utf8 rs ++ 34 :: rest)) := by
      rw [utf8_cons, he]
      simp only [List.cons_append, List.append_assoc]
    have e2 : b :: (more ++ (utf8 rs ++ 34 :: rest)) = encodeRune r ++ (utf8 rs ++ 34 :: rest) := by
      rw [he]
      rfl
    rw [e, readString_step f b _ acc hb1 hb2 hb3, e2, hd]
    simp only [List.drop_left]
    rw [ih hrs f rest _ hf', utf8_cons]
    simp only [List.reverse_append, List.reverse_reverse, List.append_assoc]

theorem expect_cons (b : Nat) (bs : List Nat) (h : isSpace b = false) :
    expect b (b :: bs) = some bs := by
  simp [expect, skipSpace, h]

theorem readMember_clean (kv : String × String) (h1 : CleanUTF8 kv.1) (h2 : CleanUTF8 kv.2)
    (rest : List Nat) : readMember (memberBytes kv ++ rest) = some (kv, rest) := by
  obtain ⟨ks, hks, ek⟩ := h1
  obtain ⟨vs, hvs, ev⟩ := h2
  have tk : toBytes kv.1 = utf8 ks := by rw [ek, toBytes_ofBytes _ (utf8_lt ks hks)]
  have tv : toBytes kv.2 = utf8 vs := by rw [ev, toBytes_ofBytes _ (utf8_lt vs hvs)]
  have e : memberBytes kv ++ rest =
      34 :: (utf8 ks ++ 34 :: (58 :: 34 :: (utf8 vs ++ 34 :: rest))) := by
    simp [memberBytes, tk, tv]
  have lk := length_utf8 ks hks
  have lv := length_utf8 vs hvs
  rw [e, readMember, expect_cons 34 _ (by decide)]
  simp only []
  rw [readString_clean ks hks _ _ _ (by simp only [List.length_append, List.length_cons]; omega)]
  simp only [expect_cons 58 _ (by decide), expect_cons 34 _ (by decide)]
  rw [readString_clean vs hvs _ _ _ (by simp only [List.length_append, List.length_cons]; omega)]
  simp only [List.reverse_nil, List.nil_append]
  rw [← ek, ← ev]

theorem length_tailBytes (t : List (String × String)) : t.length < (tailBytes t).length := by
  induction t with
  | nil => simp [tailBytes]
  | cons y t ih => simp only [tailBytes, List.length_cons, List.length_append]; omega

theorem readMembers_clean (t : List (String × String)) :
    ∀ (x : String × String) (acc : List (String × String)) (fuel : Nat),
      t.length < fuel → CleanUTF8 x.1 → CleanUTF8 x.2 →
      (∀ kv ∈ t, CleanUTF8 kv.1 ∧ CleanUTF8 kv.2) →
      readMembers fuel (memberBytes x ++ tailBytes t) acc = some (acc.reverse ++ x :: t, []) := by
  induction t with
  | nil =>
    intro x acc fuel hf h1 h2 _
    obtain ⟨f, rfl⟩ : ∃ f, fuel = f + 1 := ⟨fuel - 1, by omega⟩
    rw [readMembers, readMember_clean x h1 h2]
    simp [tailBytes, skipSpace, isSpace]
  | cons y t ih =>
    intro x acc fuel hf h1 h2 ht
    obtain ⟨f, rfl⟩ : ∃ f, fuel = f + 1 := ⟨fuel - 1, by omega⟩
    have hy := ht y (List.mem_cons_self y t)
    have ht' : ∀ kv ∈ t, CleanUTF8 kv.1 ∧ CleanUTF8 kv.2 :=
      fun kv hkv => ht kv (List.mem_cons_of_mem y hkv)
    have hf' : t.length < f := by simp only [List.length_cons] at hf; omega
    rw [readMembers, readMember_clean x h1 h2]
    have hs : skipSpace (tailBytes (y :: t)) = 44 :: (memberBytes y ++ tailBytes t) := by
      simp [tailBytes, skipSpace, isSpace]
    simp only [hs, if_true]
    rw [ih y (x :: acc) f hf' hy.1 hy.2 ht']
    simp

theorem decodeObject_payload (es : List (String × String))
    (hc : ∀ kv ∈ es, CleanUTF8 kv.1 ∧ CleanUTF8 kv.2) :
    decodeObject (toBytes ("\x7b" ++ ",".intercalate (es.map memberText) ++ "\x7d")) =
      some (GoMap.ofList es) := by
  cases es with
  | nil => decide
  | cons x t =>
    have hx := hc x (List.mem_cons_self x t)
    have ht : ∀ kv ∈ t, CleanUTF8 kv.1 ∧ CleanUTF8 kv.2 :=
      fun kv hkv => hc kv (List.mem_cons_of_mem x hkv)
    rw [payload_bytes]
    have hlen : t.length < (123 :: (memberBytes x ++ tailBytes t)).length := by
      have h := length_tailBytes t
      simp only [List.length_cons, List.length_append]
      omega
    have hm := readMembers_clean t x [] _ hlen hx.1 hx.2 ht
    have hq : expect 125 (memberBytes x ++ tailBytes t) = none := by
      simp [expect, memberBytes, skipSpace, isSpace]
    rw [decodeObject, expect_cons 123 _ (by decide)]
    simp only [hq, hm, skipSpace, if_true, List.reverse_nil, List.nil_append]

theorem utf8_ascii (rs : List Nat) (h : ∀ r ∈ rs, r < 128) : utf8 rs = rs := by
  induction rs with
  | nil => rfl
  | cons r rs ih =>
    have hr := h r (List.mem_cons_self r rs)
    rw [utf8_cons, ih (fun r' hr' => h r' (List.mem_cons_of_mem r hr'))]
    simp [encodeRune, hr]

theorem CleanUTF8_of_ascii (s : String) (h : asciiClean s = true) : CleanUTF8 s := by
  simp only [asciiClean, List.all_eq_true, Bool.and_eq_true, decide_eq_true_eq, bne_iff_ne,
    ne_eq] at h
  refine ⟨toBytes s, ?_, ?_⟩
  · intro r hr
    simp only [toBytes, List.mem_map] at hr
    obtain ⟨c, hc, rfl⟩ := hr
    obtain ⟨⟨⟨h1, h2⟩, h3⟩, h4⟩ := h c hc
    exact ⟨(isScalar_iff _).2 (Or.inl (by omega)), h3, h4, h1⟩
  · have hlt : ∀ r ∈ toBytes s, r < 128 := by
      intro r hr
      simp only [toBytes, List.mem_map] at hr
      obtain ⟨c, hc, rfl⟩ := hr
      exact (h c hc).1.1.2
    rw [utf8_ascii _ hlt, ofBytes_toBytes]

/-- The counterexample to C4: the map `k: "\xff"`, whose value is the single
byte `0xFF`, holds no double quote, no backslash and no control character;
`Payload` writes the byte as it is, and the decoder turns it into U+FFFD (the
bytes `0xEF 0xBF 0xBD`), so the decoded member is not the entry of the map.
The value `0xC3 0xA9`, which is valid UTF-8, comes back as it went in. -/
theorem C4_Payload_roundtrip_counterexample :
    (∀ kv ∈ (GoMap.ofList [("k", ofBytes [255])]).entries,
      noQuoteBackslashControl kv.1 = true ∧ noQuoteBackslashControl kv.2 = true) ∧
    (Payload RangeOrder.listed (GoMap.ofList [("k", ofBytes [255])]) DefaultURL).payload.map
      (fun r => toBytes r.s) = some [123, 34, 107, 34, 58, 34, 255, 34, 125] ∧
    ((Payload RangeOrder.listed (GoMap.ofList [("k", ofBytes [255])]) DefaultURL).payload.bind
      (fun r => decodeObject (toBytes r.s))).map GoMap.entries =
        some [("k", ofBytes [239, 191, 189])] ∧
    ¬ ([("k", ofBytes [239, 191, 189])] : List (String × String)).Perm
      (GoMap.ofList [("k", ofBytes [255])]).entries ∧
    ((Payload RangeOrder.listed (GoMap.ofList [("k", ofBytes [195, 169])])
      DefaultURL).payload.bind (fun r => decodeObject (toBytes r.s))).map GoMap.entries =
        some [("k", ofBytes [195, 169])] := by
  refine ⟨by decide, by decide, by decide, fun h => ?_, by decide⟩
  exact absurd (List.perm_singleton.1 h) (by decide)

/-- C4, amended: for every map whose keys and values are valid UTF-8 and hold
no double quote, no backslash and no control character, the text that `Payload`
produces on a fresh builder decodes as JSON to an object whose members are
exactly the entries of the map, whatever the iteration order. -/
theorem C4_Payload_roundtrip (o : RangeOrder) (pl : GoMap)
    (h : ∀ kv ∈ pl.entries, CleanUTF8 kv.1 ∧ CleanUTF8 kv.2) :
    ∃ (r : Reader) (m : GoMap),
      (Payload o pl DefaultURL).payload = some r ∧ r.i = 0 ∧
      decodeObject (toBytes r.s) = some m ∧
      m.entries.Perm pl.entries ∧ ∀ k : String, m.get? k = pl.get? k := by
  have hmap : ∀ k, (Payload o pl DefaultURL).PayloadMap.get? k = pl.get? k := by
    intro k
    rw [Payload_get?]
    have hd : DefaultURL.PayloadMap.get? k = none := rfl
    rw [hd]
    cases pl.get? k <;> rfl
  have hperm : (o.pick 1 (Payload o pl DefaultURL).PayloadMap.entries).Perm pl.entries :=
    (o.perm 1 _).trans (perm_of_getEntry_eq (GoMap.nodup _) pl.nodup hmap)
  have hn : ((o.pick 1 (Payload o pl DefaultURL).PayloadMap.entries).map Prod.fst).Nodup :=
    ((hperm.map Prod.fst).nodup_iff).2 pl.nodup
  have hc : ∀ kv ∈ o.pick 1 (Payload o pl DefaultURL).PayloadMap.entries,
      CleanUTF8 kv.1 ∧ CleanUTF8 kv.2 :=
    fun kv hkv => h kv (hperm.mem_iff.1 hkv)
  have hget : ∀ k, (GoMap.ofList (o.pick 1 (Payload o pl DefaultURL).PayloadMap.entries)).get? k =
      pl.get? k := by
    intro k
    rw [ofList_get? _ hn, getEntry_perm hperm pl.nodup k]
    rfl
  refine ⟨_, _, Payload_payload o pl DefaultURL, rfl, decodeObject_payload _ hc, ?_, hget⟩
  exact perm_of_getEntry_eq (GoMap.nodup _) pl.nodup hget

/-- The witness of C4: `Payload({"what": "that", "where": "there", "when":
"then"})` on a fresh builder decodes to an object with exactly these members. -/
theorem C4_Payload_roundtrip_witness :
    (∀ kv ∈ (GoMap.ofList [("what", "that"), ("where", "there"), ("when", "then")]).entries,
      CleanUTF8 kv.1 ∧ CleanUTF8 kv.2) ∧
    ∃ (r : Reader) (m : GoMap),
      (Payload RangeOrder.listed
        (GoMap.ofList [("what", "that"), ("where", "there"), ("when", "then")])
        DefaultURL).payload = some r ∧ r.i = 0 ∧
      decodeObject (toBytes r.s) = some m ∧
      m.entries.Perm
        (GoMap.ofList [("what", "that"), ("where", "there"), ("when", "then")]).entries ∧
      ∀ k : String, m.get? k =
        (GoMap.ofList [("what", "that"), ("where", "there"), ("when", "then")]).get? k :=
  have hc : ∀ kv ∈ (GoMap.ofList
      [("what", "that"), ("where", "there"), ("when", "then")]).entries,
      CleanUTF8 kv.1 ∧ CleanUTF8 kv.2 := fun kv hkv =>
    have ha : ∀ kv ∈ (GoMap.ofList
        [("what", "that"), ("where", "there"), ("when", "then")]).entries,
        asciiClean kv.1 = true ∧ asciiClean kv.2 = true := by decide
    ⟨CleanUTF8_of_ascii _ (ha kv hkv).1, CleanUTF8_of_ascii _ (ha kv hkv).2⟩
  ⟨hc, C4_Payload_roundtrip RangeOrder.listed
    (GoMap.ofList [("what", "that"), ("where", "there"), ("when", "then")]) hc⟩

/-! ## The error paths of `ConsumeAPI` -/

/-- C11: when the construction of the request from the triple of `Full` fails,
`ConsumeAPI` returns `nil`, hands no request to the client (so no header is
attached to anything), leaves the destination as it was and the builder as
`Full` left it; when the request is constructed, it is sent with all headers
attached, and an error from sending, from reading the body of the response or
from decoding is returned as it is. -/
theorem C11_ConsumeAPI_error_paths {ρ δ : Type} (T : Collaborators ρ δ) (o : RangeOrder)
    (dest : δ) (u : URL) :
    (∀ e, T.NewRequest (Full u).2.1 (Full u).2.2.1 (Full u).2.2.2 = .error e →
      (ConsumeAPI T o dest u).err = none ∧ (ConsumeAPI T o dest u).sent = none ∧
      (ConsumeAPI T o dest u).dest = dest ∧ (ConsumeAPI T o dest u).u = (Full u).1) ∧
    (∀ req, T.NewRequest (Full u).2.1 (Full u).2.2.1 (Full u).2.2.2 = .ok req →
      (ConsumeAPI T o dest u).sent = some (attachHeaders o u req) ∧
      (∀ e, (T.Do (attachHeaders o u req)).1 = .error e →
        (ConsumeAPI T o dest u).err = some e ∧ (ConsumeAPI T o dest u).dest = dest) ∧
      (∀ res e, (T.Do (attachHeaders o u req)).1 = .ok res → T.ReadAll res = .error e →
        (ConsumeAPI T o dest u).err = some e ∧ (ConsumeAPI T o dest u).dest = dest) ∧
      (∀ res body e, (T.Do (attachHeaders o u req)).1 = .ok res → T.ReadAll res = .ok body →
        (T.Unmarshal body dest).2 = some e →
        (ConsumeAPI T o dest u).err = some e ∧
        (ConsumeAPI T o dest u).dest = (T.Unmarshal body dest).1)) := by
  have hh : (Full u).1.HeadersMap = u.HeadersMap := by rw [Full_fst]
  refine ⟨fun e he => ?_, fun req hreq => ?_⟩
  · unfold ConsumeAPI
    simp [he]
  · unfold ConsumeAPI attachHeaders
    simp only [hreq, hh]
    refine ⟨?_, fun e he => ?_, fun res e hres he => ?_, fun res body e hres hbody he => ?_⟩
    · cases hdo : (T.Do ((o.pick 0 u.HeadersMap.entries).foldl
        (fun (req : Request) (kv : String × String) => req.addHeader kv.1 kv.2) req)).1 with
      | error e => simp only [hdo]
      | ok res =>
        simp only [hdo]
        cases hread : T.ReadAll res with
        | error e => rfl
        | ok body =>
          simp only []
          cases hum : (T.Unmarshal body dest).2 <;> simp only [hum]
    · simp [he]
    · simp [hres, he]
    · simp [hres, hbody, he]

/-- The witness of C11: the stand-in `faultyNet` fails at each of the four
stages in turn, on a fresh builder. -/
theorem C11_ConsumeAPI_error_paths_witness :
    ((faultyNet 0).NewRequest (Full DefaultURL).2.1 (Full DefaultURL).2.2.1
        (Full DefaultURL).2.2.2 = .error ⟨"construct"⟩ ∧
      (ConsumeAPI (faultyNet 0) RangeOrder.listed "untouched" DefaultURL).err = none ∧
      (ConsumeAPI (faultyNet 0) RangeOrder.listed "untouched" DefaultURL).sent = none ∧
      (ConsumeAPI (faultyNet 0) RangeOrder.listed "untouched" DefaultURL).dest = "untouched" ∧
      (ConsumeAPI (faultyNet 0) RangeOrder.listed "untouched" DefaultURL).u =
        (Full DefaultURL).1) ∧
    ((ConsumeAPI (faultyNet 1) RangeOrder.listed "untouched" DefaultURL).err =
        some ⟨"send"⟩ ∧
      (ConsumeAPI (faultyNet 1) RangeOrder.listed "untouched" DefaultURL).dest = "untouched") ∧
    ((ConsumeAPI (faultyNet 2) RangeOrder.listed "untouched" DefaultURL).err =
        some ⟨"read"⟩ ∧
      (ConsumeAPI (faultyNet 2) RangeOrder.listed "untouched" DefaultURL).dest = "untouched") ∧
    ((ConsumeAPI (faultyNet 3) RangeOrder.listed "untouched" DefaultURL).err =
        some ⟨"decode"⟩ ∧
      (ConsumeAPI (faultyNet 3) RangeOrder.listed "untouched" DefaultURL).dest = "untouched") :=
  ⟨⟨rfl, (C11_ConsumeAPI_error_paths (faultyNet 0) RangeOrder.listed "untouched"
      DefaultURL).1 ⟨"construct"⟩ rfl⟩,
    ((C11_ConsumeAPI_error_paths (faultyNet 1) RangeOrder.listed "untouched" DefaultURL).2
      { method := "GET", url := "http://", body := none, header := [] } rfl).2.1
      ⟨"send"⟩ rfl,
    ((C11_ConsumeAPI_error_paths (faultyNet 2) RangeOrder.listed "untouched" DefaultURL).2
      { method := "GET", url := "http://", body := none, header := [] } rfl).2.2.1
      "response" ⟨"read"⟩ rfl rfl,
    ((C11_ConsumeAPI_error_paths (faultyNet 3) RangeOrder.listed "untouched" DefaultURL).2
      { method := "GET", url := "http://", body := none, header := [] } rfl).2.2.2
      "response" "response" ⟨"decode"⟩ rfl rfl rfl⟩

/-! ## Eager rendering of the pagination string -/

theorem append_ne_empty_right (s t : String) (h : t ≠ "") : s ++ t ≠ "" := by
  intro e
  apply h
  have e' := congrArg String.data e
  rw [String.data_append] at e'
  exact String.ext (List.append_eq_nil.1 e').2

theorem append_ne_empty_left (s t : String) (h : s ≠ "") : s ++ t ≠ "" := by
  intro e
  apply h
  have e' := congrArg String.data e
  rw [String.data_append] at e'
  exact String.ext (List.append_eq_nil.1 e').1

theorem Pagination_ne_empty (p n : Value) (u : URL) : (Pagination p n u).pagination ≠ "" := by
  have h : (Pagination p n u).pagination =
      u.pageNoArg ++ ("=" ++ (p.format ++ "&" ++ u.perPageNoArg ++ "=" ++ n.format)) := by
    simp only [Pagination, String.append_assoc]
  rw [h]
  exact append_ne_empty_right _ _ (append_ne_empty_left _ _ (by decide))

theorem urlOf_pagination (u : URL) (h : u.pagination ≠ "") :
    urlOf u = u.protocol ++ u.domain ++ u.path ++
      (if u.argStr = "" then "?" else "?" ++ u.argStr ++ "&") ++ u.pagination := by
  unfold urlOf
  by_cases ha : u.argStr = "" <;> simp [ha, h, String.append_assoc]

/-- C13: `SetPaginationArgNames` changes the two key names only (and writes one
log line when `verbose` is on); after `Pagination(p, n)` followed by
`SetPaginationArgNames(a, b)` the pagination string is still the one built
with the keys in force when `Pagination` was called, and the URL returned by
`Full` ends with it; a later `Pagination` call renders with the keys `a` and
`b`. -/
theorem C13_Pagination_eager :
    (∀ (a b : String) (u : URL), SetPaginationArgNames a b u =
      { u with
        pageNoArg := a
        perPageNoArg := b
        log := if u.verbose then u.log ++ ["https = off"] else u.log }) ∧
    (∀ (p n : Value) (a b : String) (u : URL),
      (SetPaginationArgNames a b (Pagination p n u)).pagination =
        u.pageNoArg ++ "=" ++ p.format ++ "&" ++ u.perPageNoArg ++ "=" ++ n.format) ∧
    (∀ (p n : Value) (a b : String) (u : URL),
      (Full (SetPaginationArgNames a b (Pagination p n u))).2.2.1 =
        u.protocol ++ u.domain ++ u.path ++
          (if u.argStr = "" then "?" else "?" ++ u.argStr ++ "&") ++
          (u.pageNoArg ++ "=" ++ p.format ++ "&" ++ u.perPageNoArg ++ "=" ++ n.format)) ∧
    (∀ (p n q m : Value) (a b : String) (u : URL),
      (Pagination q m (SetPaginationArgNames a b (Pagination p n u))).pagination =
        a ++ "=" ++ q.format ++ "&" ++ b ++ "=" ++ m.format) ∧
    (Full (SetPaginationArgNames "current" "amount"
      (Pagination (.int 1) (.int 100) DefaultURL))).2.2.1 = "http://?page=1&perPage=100" ∧
    (Full (Pagination (.int 2) (.int 50) (SetPaginationArgNames "current" "amount"
      (Pagination (.int 1) (.int 100) DefaultURL)))).2.2.1 = "http://?current=2&amount=50" := by
  refine ⟨fun a b u => rfl, fun p n a b u => rfl, fun p n a b u => ?_, fun p n q m a b u => rfl,
    by decide, by decide⟩
  rw [Full_snd]
  have h : (SetPaginationArgNames a b (Pagination p n u)).pagination ≠ "" :=
    Pagination_ne_empty p n u
  rw [urlOf_pagination _ h]
  rfl

/-! ## Rendering is not injective -/

/-- C20: keys, values and segments are inserted verbatim, so rendering is not
injective: the different maps `a: 1&b=2` and `a: 1, b: 2` can render the same
query string `a=1&b=2` and give the same URL from `Full`, and the different
segment lists of `Path("a/b")` and `Path("a", "b")` give the same path
`/a/b`. -/
theorem C20_rendering_not_injective :
    GoMap.ofList [("a", "1&b=2")] ≠ GoMap.ofList [("a", "1"), ("b", "2")] ∧
    (∀ o : RangeOrder, (Args o (GoMap.ofList [("a", "1&b=2")]) DefaultURL).argStr = "a=1&b=2") ∧
    (Args RangeOrder.listed (GoMap.ofList [("a", "1"), ("b", "2")]) DefaultURL).argStr
      = "a=1&b=2" ∧
    (Full (Args RangeOrder.listed (GoMap.ofList [("a", "1&b=2")]) DefaultURL)).2.2.1 =
      (Full (Args RangeOrder.listed (GoMap.ofList [("a", "1"), ("b", "2")]) DefaultURL)).2.2.1 ∧
    (Full (Args RangeOrder.listed (GoMap.ofList [("a", "1&b=2")]) DefaultURL)).2.2.1 =
      "http://?a=1&b=2" ∧
    (["a/b"] : List String) ≠ ["a", "b"] ∧
    (Path ["a/b"] DefaultURL).path = "/a/b" ∧
    (Path ["a", "b"] DefaultURL).path = "/a/b" ∧
    (Full (Path ["a/b"] DefaultURL)).2.2.1 = (Full (Path ["a", "b"] DefaultURL)).2.2.1 := by
  refine ⟨by decide, fun o => ?_, by decide, by decide, by decide, by decide, by decide,
    by decide, by decide⟩
  rw [Args_short o _ _ (by decide) (by decide)]
  decide

/-! ## The body text of `Payload` -/

theorem Payload_BodyRendered (o : RangeOrder) (pl : GoMap) (u : URL) :
    BodyRendered (Payload o pl u) :=
  ⟨o.pick 1 (Payload o pl u).PayloadMap.entries, o.perm 1 _, Payload_payload o pl u⟩

theorem apply_payload (c : Call) (u : URL) :
    ((payloadsOf [c] = [] ∧ (c.apply u).payload = u.payload ∧
        (c.apply u).PayloadMap = u.PayloadMap) ∨
      BodyRendered (c.apply u)) ∧
    ∀ k : String, (c.apply u).PayloadMap.get? k =
      match lastSupplied (payloadsOf [c]) k with
      | some v => some v
      | none => u.PayloadMap.get? k := by
  cases c
  case Payload o pl =>
    refine ⟨Or.inr (Payload_BodyRendered o pl u), fun k => ?_⟩
    simp only [Call.apply, Payload_get?, payloadsOf, lastSupplied]
  case Full =>
    rw [Call.apply, Full_fst]
    exact ⟨Or.inl ⟨rfl, rfl, rfl⟩, fun k => rfl⟩
  all_goals exact ⟨Or.inl ⟨rfl, rfl, rfl⟩, fun k => rfl⟩

theorem lastSupplied_payloadsOf_cons (c : Call) (cs : List Call) (k : String) :
    lastSupplied (payloadsOf (c :: cs)) k =
      match lastSupplied (payloadsOf cs) k with
      | some v => some v
      | none => lastSupplied (payloadsOf [c]) k := by
  cases c <;> simp only [payloadsOf, lastSupplied] <;> cases lastSupplied (payloadsOf cs) k <;> rfl

theorem payloadsOf_cons (c : Call) (cs : List Call) :
    payloadsOf (c :: cs) = payloadsOf [c] ++ payloadsOf cs := by
  cases c <;> simp [payloadsOf]

theorem run_payload (cs : List Call) (u : URL) :
    ((payloadsOf cs = [] ∧ (run cs u).payload = u.payload ∧
        (run cs u).PayloadMap = u.PayloadMap) ∨
      BodyRendered (run cs u)) ∧
    ∀ k : String, (run cs u).PayloadMap.get? k =
      match lastSupplied (payloadsOf cs) k with
      | some v => some v
      | none => u.PayloadMap.get? k := by
  induction cs generalizing u with
  | nil => exact ⟨Or.inl ⟨rfl, rfl, rfl⟩, fun k => rfl⟩
  | cons c cs ih =>
    have hr : run (c :: cs) u = run cs (c.apply u) := rfl
    obtain ⟨h1, h2⟩ := apply_payload c u
    obtain ⟨h3, h4⟩ := ih (c.apply u)
    refine ⟨?_, fun k => ?_⟩
    · rw [hr]
      rcases h3 with ⟨hn, hp, hm⟩ | hb
      · rcases h1 with ⟨hn1, hp1, hm1⟩ | hb1
        · refine Or.inl ⟨?_, hp.trans hp1, hm.trans hm1⟩
          rw [payloadsOf_cons, hn1, hn]
          rfl
        · obtain ⟨es, hes, hpay⟩ := hb1
          exact Or.inr ⟨es, hm ▸ hes, hp ▸ hpay⟩
      · exact Or.inr hb
    · rw [hr, h4 k, h2 k, lastSupplied_payloadsOf_cons c cs k]
      cases lastSupplied (payloadsOf cs) k <;> rfl

theorem payloadsOf_payloadCalls (cs : List (RangeOrder × GoMap)) :
    payloadsOf (payloadCalls cs) = cs.map Prod.snd := by
  induction cs with
  | nil => rfl
  | cons c t ih =>
    have h : payloadCalls (c :: t) = Call.Payload c.1 c.2 :: payloadCalls t := rfl
    rw [h, payloadsOf, ih, List.map_cons]

/-- C14: after any sequence of `Payload` calls on a fresh builder that has at
least one call, the body is a fresh reader on the text made of an opening
brace, the `,`-join of `"key":"value"` over the entries of the accumulated
payload map in some order, and a closing brace; the map holds every key once,
with the value of the most recent call that supplied it, so a later call
overwrites a key and drops none; the same holds with calls of other methods in
between, and without any `Payload` call there is no body; an empty accumulated
map gives the text of the two braces; keys and values are inserted verbatim,
also a double quote or a backslash. -/
theorem C14_Payload_body :
    (∀ (cs : List (RangeOrder × GoMap)) (o : RangeOrder) (pl : GoMap),
      (∃ es : List (String × String),
        es.Perm (run (payloadCalls (cs ++ [(o, pl)])) DefaultURL).PayloadMap.entries ∧
        (run (payloadCalls (cs ++ [(o, pl)])) DefaultURL).payload =
          some (NewReader ("\x7b" ++ ",".intercalate
            (es.map (fun kv => "\"" ++ kv.1 ++ "\":\"" ++ kv.2 ++ "\"")) ++ "\x7d"))) ∧
      (run (payloadCalls (cs ++ [(o, pl)])) DefaultURL).PayloadMap.keys.Nodup ∧
      (∀ k : String, (run (payloadCalls (cs ++ [(o, pl)])) DefaultURL).PayloadMap.get? k =
        lastSupplied (cs.map Prod.snd ++ [pl]) k)) ∧
    (∀ cs : List Call,
      ((payloadsOf cs = [] ∧ (run cs DefaultURL).payload = none) ∨
        (∃ es : List (String × String),
          es.Perm (run cs DefaultURL).PayloadMap.entries ∧
          (run cs DefaultURL).payload =
            some (NewReader ("\x7b" ++ ",".intercalate
              (es.map (fun kv => "\"" ++ kv.1 ++ "\":\"" ++ kv.2 ++ "\"")) ++ "\x7d")))) ∧
      (∀ k : String, (run cs DefaultURL).PayloadMap.get? k = lastSupplied (payloadsOf cs) k)) ∧
    (∀ (o : RangeOrder) (pl : GoMap) (u : URL),
      (Payload o pl u).PayloadMap.entries ≠ [] ∨
      (Payload o pl u).payload = some (NewReader "\x7b\x7d")) ∧
    (∀ o : RangeOrder,
      (Payload o GoMap.make DefaultURL).payload = some (NewReader "\x7b\x7d")) ∧
    (Payload RangeOrder.listed (GoMap.ofList [("a\"b", "c\\")]) DefaultURL).payload =
      some (NewReader "\x7b\"a\"b\":\"c\\\"\x7d") ∧
    (Payload RangeOrder.listed (GoMap.ofList [("a", "3")])
      (Payload RangeOrder.listed (GoMap.ofList [("a", "1"), ("b", "2")]) DefaultURL)).payload =
      some (NewReader "\x7b\"a\":\"3\",\"b\":\"2\"\x7d") := by
  have general : ∀ cs : List Call,
      ((payloadsOf cs = [] ∧ (run cs DefaultURL).payload = none) ∨
        BodyRendered (run cs DefaultURL)) ∧
      (∀ k : String, (run cs DefaultURL).PayloadMap.get? k = lastSupplied (payloadsOf cs) k) := by
    intro cs
    obtain ⟨h1, h2⟩ := run_payload cs DefaultURL
    refine ⟨?_, fun k => ?_⟩
    · rcases h1 with ⟨hn, hp, _⟩ | hb
      · exact Or.inl ⟨hn, hp⟩
      · exact Or.inr hb
    · rw [h2 k]
      cases lastSupplied (payloadsOf cs) k <;> rfl
  have empty : ∀ (o : RangeOrder) (pl : GoMap) (u : URL),
      (Payload o pl u).PayloadMap.entries ≠ [] ∨
      (Payload o pl u).payload = some (NewReader "\x7b\x7d") := by
    intro o pl u
    by_cases hnil : (Payload o pl u).PayloadMap.entries = []
    · right
      have hp := o.perm 1 (Payload o pl u).PayloadMap.entries
      rw [hnil] at hp
      rw [Payload_payload, hnil, List.perm_nil.1 hp]
      rfl
    · exact Or.inl hnil
  refine ⟨fun cs o pl => ?_, general, empty, fun o => ?_, by decide, by decide⟩
  · obtain ⟨h1, h2⟩ := general (payloadCalls (cs ++ [(o, pl)]))
    have hne : payloadsOf (payloadCalls (cs ++ [(o, pl)])) = cs.map Prod.snd ++ [pl] := by
      rw [payloadsOf_payloadCalls, List.map_append]
      rfl
    refine ⟨?_, GoMap.nodup _, fun k => ?_⟩
    · rcases h1 with ⟨hn, _⟩ | hb
      · rw [hne] at hn
        exact absurd hn (by simp)
      · exact hb
    · rw [h2 k, hne]
  · rcases empty o GoMap.make DefaultURL with h | h
    · exfalso
      apply h
      have hk : ∀ k, (Payload o GoMap.make DefaultURL).PayloadMap.get? k = none := by
        intro k
        rw [Payload_get?]
        rfl
      cases he : (Payload o GoMap.make DefaultURL).PayloadMap.entries with
      | nil => rfl
      | cons x t =>
        have := hk x.1
        rw [GoMap.get?, he] at this
        simp [getEntry] at this
    · exact h

/-! ## When `Full` appends a question mark -/

theorem go_ne_empty (sep : String) (l : List String) (acc : String) (h : acc ≠ "") :
    String.intercalate.go acc sep l ≠ "" := by
  induction l generalizing acc with
  | nil => exact h
  | cons a t ih =>
    rw [String.intercalate.go]
    exact ih _ (append_ne_empty_left _ _ (append_ne_empty_left _ _ h))

theorem join_pairs_eq_empty (es : List (String × String)) :
    "&".intercalate (es.map pairText) = "" ↔ es = [] := by
  cases es with
  | nil => exact ⟨fun _ => rfl, fun _ => rfl⟩
  | cons x t =>
    refine ⟨fun h => ?_, fun h => by cases h⟩
    exfalso
    have hx : pairText x ≠ "" := by
      have e : pairText x = x.1 ++ ("=" ++ x.2) := by simp only [pairText, String.append_assoc]
      rw [e]
      exact append_ne_empty_right _ _ (append_ne_empty_left _ _ (by decide))
    exact go_ne_empty "&" (t.map pairText) (pairText x) hx h

theorem Rendered_argStr_empty (u : URL) (h : Rendered u) :
    u.argStr = "" ↔ u.ArgMap.entries = [] := by
  obtain ⟨es, hp, he⟩ := h
  rw [he, join_pairs_eq_empty]
  constructor
  · intro h0
    rw [h0] at hp
    exact List.nil_perm.1 hp
  · intro h0
    rw [h0] at hp
    exact List.perm_nil.1 hp

theorem append_eq_self_iff (a s : String) : a ++ s = a ↔ s = "" := by
  constructor
  · intro h
    have h' := congrArg String.data h
    rw [String.data_append] at h'
    exact String.ext (List.append_right_eq_self.1 h')
  · intro h
    rw [h, String.append_empty]

theorem urlOf_eq_base_iff (u : URL) :
    urlOf u = u.protocol ++ u.domain ++ u.path ↔ u.argStr = "" ∧ u.pagination = "" := by
  unfold urlOf
  rw [append_eq_self_iff]
  by_cases ha : u.argStr = "" <;> by_cases hg : u.pagination = ""
  · simp [ha, hg]
  · simp only [ha, hg, if_true, if_false, and_false, iff_false]
    exact append_ne_empty_left _ _ (by decide)
  · simp only [ha, hg, if_true, if_false, and_true, false_and, iff_false]
    exact append_ne_empty_left _ _ (by decide)
  · simp only [ha, hg, if_false, and_self, iff_false]
    exact append_ne_empty_left _ _ (append_ne_empty_left _ _ (append_ne_empty_left _ _ (by decide)))

theorem apply_pagination (c : Call) (u : URL) :
    (hasPagination [c] = true ∧ (c.apply u).pagination ≠ "") ∨
    (hasPagination [c] = false ∧ (c.apply u).pagination = u.pagination) := by
  cases c
  case Pagination p n => exact Or.inl ⟨rfl, Pagination_ne_empty p n u⟩
  case Payload o pl => rw [Call.apply, Payload_eq]; exact Or.inr ⟨rfl, rfl⟩
  case Full => rw [Call.apply, Full_fst]; exact Or.inr ⟨rfl, rfl⟩
  all_goals exact Or.inr ⟨rfl, rfl⟩

theorem hasPagination_cons (c : Call) (cs : List Call) :
    hasPagination (c :: cs) = (hasPagination [c] || hasPagination cs) := by
  cases c <;> simp [hasPagination]

theorem run_pagination (cs : List Call) (u : URL) :
    (hasPagination cs = true ∧ (run cs u).pagination ≠ "") ∨
    (hasPagination cs = false ∧ (run cs u).pagination = u.pagination) := by
  induction cs generalizing u with
  | nil => exact Or.inr ⟨rfl, rfl⟩
  | cons c cs ih =>
    have hr : run (c :: cs) u = run cs (c.apply u) := rfl
    rw [hr, hasPagination_cons]
    rcases ih (c.apply u) with ⟨h1, h2⟩ | ⟨h1, h2⟩
    · exact Or.inl ⟨by rw [h1, Bool.or_true], h2⟩
    · rcases apply_pagination c u with ⟨h3, h4⟩ | ⟨h3, h4⟩
      · exact Or.inl ⟨by rw [h3, Bool.true_or], h2 ▸ h4⟩
      · exact Or.inr ⟨by rw [h1, h3, Bool.or_false], h2.trans h4⟩

theorem entries_nil_of_get? (m : GoMap) (h : ∀ k, m.get? k = none) : m.entries = [] := by
  cases he : m.entries with
  | nil => rfl
  | cons x t =>
    have hx := h x.1
    rw [GoMap.get?, he] at hx
    simp [getEntry] at hx

/-- C19: after any sequence of calls on a fresh builder the URL returned by
`Full` is exactly `protocol ++ domain ++ path` if and only if the accumulated
argument map is empty and the sequence has no `Pagination` call; the map is
empty when the sequence has no `Args` call; the query string is empty exactly
when the argument map is empty, so a map with an entry always renders a
non-empty query string, the single entry with empty key and empty value
renders `=`; every `Pagination` call renders a non-empty pagination string. -/
theorem C19_question_mark :
    (∀ cs : List Call,
      (Full (run cs DefaultURL)).2.2.1 =
        (run cs DefaultURL).protocol ++ (run cs DefaultURL).domain ++ (run cs DefaultURL).path ↔
      ((run cs DefaultURL).ArgMap.entries = [] ∧ hasPagination cs = false)) ∧
    (∀ cs : List Call, argsOf cs ≠ [] ∨ (run cs DefaultURL).ArgMap.entries = []) ∧
    (∀ cs : List Call,
      (run cs DefaultURL).argStr = "" ↔ (run cs DefaultURL).ArgMap.entries = []) ∧
    (∀ (o : RangeOrder) (args : GoMap) (u : URL),
      (Args o args u).argStr = "" ↔ (Args o args u).ArgMap.entries = []) ∧
    (∀ o : RangeOrder, (Args o (GoMap.ofList [("", "")]) DefaultURL).argStr = "=") ∧
    (∀ (p n : Value) (u : URL), (Pagination p n u).pagination ≠ "") ∧
    (Full (Args RangeOrder.listed (GoMap.ofList [("", "")]) DefaultURL)).2.2.1 = "http://?=" := by
  refine ⟨fun cs => ?_, fun cs => ?_, fun cs => ?_, fun o args u => ?_, fun o => ?_,
    Pagination_ne_empty, by decide⟩
  · rw [Full_snd]
    show urlOf (run cs DefaultURL) = _ ↔ _
    rw [urlOf_eq_base_iff,
      Rendered_argStr_empty _ (run_args cs DefaultURL Rendered_fresh "").1]
    have hd : DefaultURL.pagination = "" := rfl
    rcases run_pagination cs DefaultURL with ⟨h1, h2⟩ | ⟨h1, h2⟩
    · simp [h1, h2]
    · simp [h1, h2, hd]
  · by_cases hn : argsOf cs = []
    · right
      apply entries_nil_of_get?
      intro k
      rw [(run_args cs DefaultURL Rendered_fresh k).2, hn]
      rfl
    · exact Or.inl hn
  · exact Rendered_argStr_empty _ (run_args cs DefaultURL Rendered_fresh "").1
  · exact Rendered_argStr_empty _
      ⟨o.pick 1 (Args o args u).ArgMap.entries, o.perm 1 _, Args_argStr o args u⟩
  · rw [Args_short o _ _ (by decide) (by decide)]
    decide

/-! ## The verbose flag -/

theorem core_Payload (o : RangeOrder) (pl : GoMap) (u : URL) :
    core (Payload o pl u) = core (Payload o pl (core u)) := by
  unfold Payload core
  by_cases hv : u.verbose = true <;> simp [hv]

theorem core_Full (u : URL) : core (Full u).1 = core (Full (core u)).1 := by
  rw [Full_fst, Full_fst]
  rfl

theorem core_apply (c : Call) (h : isVerboseCall c = false) (u : URL) :
    core (c.apply u) = core (c.apply (core u)) := by
  cases c
  case VerboseOn => cases h
  case VerboseOff => cases h
  case Payload o pl => exact core_Payload o pl u
  case Full => exact core_Full u
  all_goals rfl

theorem core_apply_verbose (c : Call) (h : isVerboseCall c = true) (u : URL) :
    core (c.apply u) = core u := by
  cases c
  case VerboseOn => rfl
  case VerboseOff => rfl
  all_goals cases h

theorem core_run (cs : List Call) (u v : URL) (h : core u = core v) :
    core (run cs u) = core (run (dropVerbose cs) v) := by
  induction cs generalizing u v with
  | nil => exact h
  | cons c cs ih =>
    have hr : run (c :: cs) u = run cs (c.apply u) := rfl
    rw [hr]
    cases hc : isVerboseCall c with
    | true =>
      have hd : dropVerbose (c :: cs) = dropVerbose cs := by
        simp [dropVerbose, List.filter_cons, hc]
      rw [hd]
      exact ih _ _ ((core_apply_verbose c hc u).trans h)
    | false =>
      have hd : dropVerbose (c :: cs) = c :: dropVerbose cs := by
        simp [dropVerbose, List.filter_cons, hc]
      rw [hd]
      have hr' : run (c :: dropVerbose cs) v = run (dropVerbose cs) (c.apply v) := rfl
      rw [hr']
      apply ih
      rw [core_apply c hc u, core_apply c hc v, h]

theorem Full_snd_core (u : URL) : (Full u).2 = (Full (core u)).2 := by
  rw [Full_snd, Full_snd]
  rfl

/-- C12: the verbose flag does not reach the request. A sequence of calls and
the same sequence without its `VerboseOn` and `VerboseOff` calls lead to
builders that agree on every field other than `verbose` (and differ at most in
the lines they have logged), and `Full` returns the same method, URL and body
on both; so do any two sequences that are equal up to the `VerboseOn` and
`VerboseOff` calls in them, started on builders that agree up to `verbose`.
What the flag changes is the log: `Secure` logs one line after `VerboseOn` and
none without it. -/
theorem C12_verbose_noninterference :
    (∀ (cs : List Call) (u : URL), core (run cs u) = core (run (dropVerbose cs) u)) ∧
    (∀ (cs : List Call) (u : URL), (Full (run cs u)).2 = (Full (run (dropVerbose cs) u)).2) ∧
    (∀ (cs cs' : List Call) (u u' : URL),
      dropVerbose cs = dropVerbose cs' → core u = core u' →
      core (run cs u) = core (run cs' u') ∧ (Full (run cs u)).2 = (Full (run cs' u')).2) ∧
    (∀ u : URL, core (VerboseOn u) = core u ∧ core (VerboseOff u) = core u ∧
      VerboseOn u = { u with verbose := true } ∧ VerboseOff u = { u with verbose := false }) ∧
    (run [Call.VerboseOn, Call.Secure] DefaultURL).log = ["https = on"] ∧
    (run [Call.Secure] DefaultURL).log = [] := by
  have two : ∀ (cs cs' : List Call) (u u' : URL), dropVerbose cs = dropVerbose cs' →
      core u = core u' → core (run cs u) = core (run cs' u') := by
    intro cs cs' u u' hd hu
    rw [core_run cs u u' hu, hd, ← core_run cs' u' u' rfl]
  refine ⟨fun cs u => core_run cs u u rfl, fun cs u => ?_,
    fun cs cs' u u' hd hu => ⟨two cs cs' u u' hd hu, ?_⟩,
    fun u => ⟨rfl, rfl, rfl, rfl⟩, by decide, by decide⟩
  · rw [Full_snd_core, core_run cs u u rfl, ← Full_snd_core]
  · rw [Full_snd_core, two cs cs' u u' hd hu, ← Full_snd_core]

/-- The witness of C12: `VerboseOn` before `Secure` and `Path`, against
`VerboseOff` put between them. -/
theorem C12_verbose_noninterference_witness :
    dropVerbose [Call.VerboseOn, Call.Secure, Call.Path ["a"]] =
      dropVerbose [Call.Secure, Call.VerboseOff, Call.Path ["a"]] ∧
    core DefaultURL = core (VerboseOn DefaultURL) ∧
    core (run [Call.VerboseOn, Call.Secure, Call.Path ["a"]] DefaultURL) =
      core (run [Call.Secure, Call.VerboseOff, Call.Path ["a"]] (VerboseOn DefaultURL)) ∧
    (Full (run [Call.VerboseOn, Call.Secure, Call.Path ["a"]] DefaultURL)).2 =
      (Full (run [Call.Secure, Call.VerboseOff, Call.Path ["a"]] (VerboseOn DefaultURL))).2 :=
  ⟨rfl, rfl, C12_verbose_noninterference.2.2.1
    [Call.VerboseOn, Call.Secure, Call.Path ["a"]]
    [Call.Secure, Call.VerboseOff, Call.Path ["a"]] DefaultURL (VerboseOn DefaultURL) rfl rfl⟩

/-! ## Independence of the facets -/

theorem merge_order_iff (a b : GoMap) (m₁ m₂ : GoMap) (base : String → Option String)
    (h₁ : ∀ k, m₁.get? k =
      match b.get? k with
      | some v => some v
      | none =>
        match a.get? k with
        | some v => some v
        | none => base k)
    (h₂ : ∀ k, m₂.get? k =
      match a.get? k with
      | some v => some v
      | none =>
        match b.get? k with
        | some v => some v
        | none => base k) :
    ((∀ k, m₁.get? k = m₂.get? k) ↔ a.Agree b) ∧
    (m₁.entries.Perm m₂.entries ↔ a.Agree b) := by
  have hl : (∀ k, m₁.get? k = m₂.get? k) ↔ a.Agree b := by
    constructor
    · intro h k v w ha hb
      have hk := h k
      rw [h₁ k, h₂ k, ha, hb] at hk
      exact (Option.some.inj hk).symm
    · intro h k
      rw [h₁ k, h₂ k]
      cases ha : a.get? k with
      | none => cases hb : b.get? k <;> rfl
      | some v =>
        cases hb : b.get? k with
        | none => rfl
        | some w => rw [h k v w ha hb]
  refine ⟨hl, ?_⟩
  rw [← hl]
  constructor
  · intro hp k
    exact getEntry_perm hp m₂.nodup k
  · intro h
    exact perm_of_getEntry_eq m₁.nodup m₂.nodup h

/-- The counterexample to C17: with `a` the map `k: 1` and `b` the map `k: 2`,
`Args(a)` followed by `Args(b)` leaves `k: 2` and renders `k=2`, `Args(b)`
followed by `Args(a)` leaves `k: 1` and renders `k=1`; likewise for
`Payload`. -/
theorem C17_merge_order_counterexample :
    (Args RangeOrder.listed (GoMap.ofList [("k", "2")])
      (Args RangeOrder.listed (GoMap.ofList [("k", "1")]) DefaultURL)).ArgMap.entries =
        [("k", "2")] ∧
    (Args RangeOrder.listed (GoMap.ofList [("k", "1")])
      (Args RangeOrder.listed (GoMap.ofList [("k", "2")]) DefaultURL)).ArgMap.entries =
        [("k", "1")] ∧
    (Args RangeOrder.listed (GoMap.ofList [("k", "2")])
      (Args RangeOrder.listed (GoMap.ofList [("k", "1")]) DefaultURL)).argStr = "k=2" ∧
    (Args RangeOrder.listed (GoMap.ofList [("k", "1")])
      (Args RangeOrder.listed (GoMap.ofList [("k", "2")]) DefaultURL)).argStr = "k=1" ∧
    (Payload RangeOrder.listed (GoMap.ofList [("k", "2")])
      (Payload RangeOrder.listed (GoMap.ofList [("k", "1")]) DefaultURL)).PayloadMap.entries =
        [("k", "2")] ∧
    (Payload RangeOrder.listed (GoMap.ofList [("k", "1")])
      (Payload RangeOrder.listed (GoMap.ofList [("k", "2")]) DefaultURL)).PayloadMap.entries =
        [("k", "1")] ∧
    ¬ (∀ (a b : GoMap) (u : URL) (k : String),
      (Args RangeOrder.listed b (Args RangeOrder.listed a u)).ArgMap.get? k =
        (Args RangeOrder.listed a (Args RangeOrder.listed b u)).ArgMap.get? k) ∧
    ¬ (∀ (a b : GoMap) (u : URL) (k : String),
      (Payload RangeOrder.listed b (Payload RangeOrder.listed a u)).PayloadMap.get? k =
        (Payload RangeOrder.listed a (Payload RangeOrder.listed b u)).PayloadMap.get? k) := by
  refine ⟨by decide, by decide, by decide, by decide, by decide, by decide, fun h => ?_,
    fun h => ?_⟩
  · exact absurd (h (GoMap.ofList [("k", "1")]) (GoMap.ofList [("k", "2")]) DefaultURL "k")
      (by decide)
  · exact absurd (h (GoMap.ofList [("k", "1")]) (GoMap.ofList [("k", "2")]) DefaultURL "k")
      (by decide)

/-- C17, amended: `Args(a)` followed by `Args(b)` leaves the same accumulated
argument map as `Args(b)` followed by `Args(a)` (the same value for every key,
the same entries up to their order) if and only if `a` and `b` give the same
value to every key that both hold, so in particular when they share no key;
each of the two query strings is the join of the pairs of the entries of its
own map in some order; likewise for `Payload`, its map and its body. -/
theorem C17_merge_order (o₁ o₂ o₃ o₄ : RangeOrder) (a b : GoMap) (u : URL) :
    ((∀ k : String, (Args o₂ b (Args o₁ a u)).ArgMap.get? k =
        (Args o₄ a (Args o₃ b u)).ArgMap.get? k) ↔ a.Agree b) ∧
    ((Args o₂ b (Args o₁ a u)).ArgMap.entries.Perm
        (Args o₄ a (Args o₃ b u)).ArgMap.entries ↔ a.Agree b) ∧
    (∃ es : List (String × String), es.Perm (Args o₂ b (Args o₁ a u)).ArgMap.entries ∧
      (Args o₂ b (Args o₁ a u)).argStr =
        "&".intercalate (es.map (fun kv => kv.1 ++ "=" ++ kv.2))) ∧
    (∃ es : List (String × String), es.Perm (Args o₄ a (Args o₃ b u)).ArgMap.entries ∧
      (Args o₄ a (Args o₃ b u)).argStr =
        "&".intercalate (es.map (fun kv => kv.1 ++ "=" ++ kv.2))) ∧
    ((∀ k : String, (Payload o₂ b (Payload o₁ a u)).PayloadMap.get? k =
        (Payload o₄ a (Payload o₃ b u)).PayloadMap.get? k) ↔ a.Agree b) ∧
    ((Payload o₂ b (Payload o₁ a u)).PayloadMap.entries.Perm
        (Payload o₄ a (Payload o₃ b u)).PayloadMap.entries ↔ a.Agree b) ∧
    BodyRendered (Payload o₂ b (Payload o₁ a u)) ∧
    BodyRendered (Payload o₄ a (Payload o₃ b u)) := by
  have hA := merge_order_iff a b (Args o₂ b (Args o₁ a u)).ArgMap
    (Args o₄ a (Args o₃ b u)).ArgMap (fun k => u.ArgMap.get? k)
    (fun k => by rw [Args_get?, Args_get?]) (fun k => by rw [Args_get?, Args_get?])
  have hP := merge_order_iff a b (Payload o₂ b (Payload o₁ a u)).PayloadMap
    (Payload o₄ a (Payload o₃ b u)).PayloadMap (fun k => u.PayloadMap.get? k)
    (fun k => by rw [Payload_get?, Payload_get?]) (fun k => by rw [Payload_get?, Payload_get?])
  exact ⟨hA.1, hA.2, ⟨_, o₂.perm 1 _, Args_argStr o₂ b _⟩,
    ⟨_, o₄.perm 1 _, Args_argStr o₄ a _⟩, hP.1, hP.2, Payload_BodyRendered _ _ _,
    Payload_BodyRendered _ _ _⟩

/-! ## Executing a builder twice -/

theorem advance_rest (r : Reader) (n : Nat) :
    (r.advance n).rest = ⟨r.rest.data.drop n⟩ := by
  apply String.ext
  simp only [Reader.advance, Reader.rest, String.length, List.drop_drop]
  rcases Nat.le_total (r.i + n) r.s.data.length with h | h
  · rw [Nat.min_eq_left h, Nat.add_comm]
  · rw [Nat.min_eq_right h, List.drop_eq_nil_of_le (Nat.le_refl _),
      List.drop_eq_nil_of_le (by omega)]

theorem ConsumeAPI_u {ρ δ : Type} (T : Collaborators ρ δ) (o : RangeOrder) (dest : δ)
    (u : URL) :
    (ConsumeAPI T o dest u).u =
      { (Full u).1 with
        payload := match T.NewRequest (Full u).2.1 (Full u).2.2.1 (Full u).2.2.2 with
          | .error _ => u.payload
          | .ok req => u.payload.map (fun r => r.advance (T.Do (attachHeaders o u req)).2) } := by
  have hh : (Full u).1.HeadersMap = u.HeadersMap := by rw [Full_fst]
  have hp : (Full u).1.payload = u.payload := by rw [Full_fst]
  unfold ConsumeAPI attachHeaders
  cases hreq : T.NewRequest (Full u).2.1 (Full u).2.2.1 (Full u).2.2.2 with
  | error e =>
    simp only [hreq]
    rw [← hp]
  | ok req =>
    simp only [hreq, hh, hp]
    cases hdo : (T.Do ((o.pick 0 u.HeadersMap.entries).foldl
      (fun (req : Request) (kv : String × String) => req.addHeader kv.1 kv.2) req)).1 with
    | error e => simp only [hdo]
    | ok res =>
      simp only [hdo]
      cases hread : T.ReadAll res with
      | error e => rfl
      | ok body =>
        simp only []
        cases hum : (T.Unmarshal body dest).2 <;> simp only [hum]

theorem ConsumeAPI_payload {ρ δ : Type} (T : Collaborators ρ δ) (o : RangeOrder) (dest : δ)
    (u : URL) :
    (ConsumeAPI T o dest u).u.payload =
      match T.NewRequest (Full u).2.1 (Full u).2.2.1 (Full u).2.2.2 with
      | .error _ => u.payload
      | .ok req => u.payload.map (fun r => r.advance (T.Do (attachHeaders o u req)).2) := by
  rw [ConsumeAPI_u]

theorem ConsumeAPI_frame {ρ δ : Type} (T : Collaborators ρ δ) (o : RangeOrder) (dest : δ)
    (u : URL) :
    (ConsumeAPI T o dest u).u =
      { (Full u).1 with payload := (ConsumeAPI T o dest u).u.payload } := by
  rw [ConsumeAPI_u]

/-- The counterexample to C15: on the builder
`DefaultURL().Payload(a: b)`, with a client that reads the request body to its
end, the first `ConsumeAPI` hands the client the full rendered payload, the
`Full` after it returns a body with no text left, and the second `ConsumeAPI`
hands the client the empty text. -/
theorem C15_reexecution_counterexample :
    ((Full (Payload RangeOrder.listed (GoMap.ofList [("a", "b")]) DefaultURL)).2.2.2).map
      Reader.rest = some "\x7b\"a\":\"b\"\x7d" ∧
    (ConsumeAPI strictNet RangeOrder.listed ""
      (Payload RangeOrder.listed (GoMap.ofList [("a", "b")]) DefaultURL)).sent.bind
        Request.bodyText = some "\x7b\"a\":\"b\"\x7d" ∧
    ((Full (ConsumeAPI strictNet RangeOrder.listed ""
      (Payload RangeOrder.listed (GoMap.ofList [("a", "b")]) DefaultURL)).u).2.2.2).map
        Reader.rest = some "" ∧
    (ConsumeAPI strictNet RangeOrder.listed ""
      (ConsumeAPI strictNet RangeOrder.listed ""
        (Payload RangeOrder.listed (GoMap.ofList [("a", "b")]) DefaultURL)).u).sent.bind
          Request.bodyText = some "" ∧
    (ConsumeAPI strictNet RangeOrder.listed ""
      (ConsumeAPI strictNet RangeOrder.listed ""
        (Payload RangeOrder.listed (GoMap.ofList [("a", "b")]) DefaultURL)).u).sent.bind
          Request.bodyText ≠
      (ConsumeAPI strictNet RangeOrder.listed ""
        (Payload RangeOrder.listed (GoMap.ofList [("a", "b")]) DefaultURL)).sent.bind
          Request.bodyText := by
  refine ⟨by decide, by decide, by decide, by decide, by decide⟩

/-- C15, amended: `ConsumeAPI` followed by `Full` (or by a second
`ConsumeAPI`) with no configuration call in between yields the same method and
the same URL as before; the body is the same reader, and its text is the text
it had before without the characters that the client has read during the first
execution: nothing is left of it once the client has read it to its end. Two
calls of `Full` with no execution in between return the same triple. -/
theorem C15_reexecution :
    (∀ (ρ δ : Type) (T : Collaborators ρ δ) (o : RangeOrder) (dest : δ) (u : URL),
      (Full (ConsumeAPI T o dest u).u).2.1 = (Full u).2.1 ∧
      (Full (ConsumeAPI T o dest u).u).2.2.1 = (Full u).2.2.1 ∧
      ((Full (ConsumeAPI T o dest u).u).2.2.2).map Reader.rest =
        ((Full u).2.2.2).map
          (fun r => (⟨r.rest.data.drop (consumedBy T o u)⟩ : String))) ∧
    (∀ (r : Reader) (n : Nat), (r.advance n).rest = ⟨r.rest.data.drop n⟩) ∧
    (∀ (r : Reader) (k : Nat), (r.advance (r.rest.length + k)).rest = "") ∧
    (∀ u : URL, (Full (Full u).1).2 = (Full u).2) ∧
    (∀ (o : RangeOrder) (pl : GoMap) (u : URL),
      ∃ r : Reader, (Full (Payload o pl u)).2.2.2 = some r ∧ r.rest = r.s) := by
  refine ⟨fun ρ δ T o dest u => ?_, advance_rest, fun r k => ?_, fun u => ?_,
    fun o pl u => ?_⟩
  · have hp := ConsumeAPI_payload T o dest u
    have hf := ConsumeAPI_frame T o dest u
    have hm : (ConsumeAPI T o dest u).u.method = u.method := by
      rw [hf, Full_fst]
    have hu : urlOf (ConsumeAPI T o dest u).u = urlOf u := by
      rw [hf, ← urlOf_Full u]
      rfl
    rw [Full_snd, Full_snd]
    refine ⟨hm, hu, ?_⟩
    rw [hp]
    unfold consumedBy
    cases hreq : T.NewRequest (Full u).2.1 (Full u).2.2.1 (Full u).2.2.2 with
    | error e => cases u.payload <;> simp [Reader.rest]
    | ok req => cases u.payload <;> simp [advance_rest]
  · rw [advance_rest]
    apply String.ext
    show List.drop (r.rest.data.length + k) r.rest.data = []
    exact List.drop_eq_nil_of_le (Nat.le_add_right _ _)
  · rw [Full_snd, Full_snd, urlOf_Full, Full_fst]
  · rw [Full_snd]
    exact ⟨_, Payload_payload o pl u, rfl⟩

/-! ## The two builders -/

theorem TopLevel_Full_eq (t : TopLevel.URL) :
    TopLevel.Full t =
      ({ t with full := t.protocol ++ t.domain ++ t.path ++
          (if t.argStr = "" then (if t.pagination = "" then "" else "?" ++ t.pagination)
           else if t.pagination = "" then "?" ++ t.argStr
           else "?" ++ t.argStr ++ "&" ++ t.pagination) },
        (t.method, t.protocol ++ t.domain ++ t.path ++
          (if t.argStr = "" then (if t.pagination = "" then "" else "?" ++ t.pagination)
           else if t.pagination = "" then "?" ++ t.argStr
           else "?" ++ t.argStr ++ "&" ++ t.pagination), t.payload)) := by
  unfold TopLevel.Full
  by_cases hp : t.path = "" <;> by_cases ha : t.argStr = "" <;> by_cases hg : t.pagination = ""
    <;> simp [length_pos_iff_ne, hp, ha, hg, String.append_assoc]

theorem forget_Full (u : URL) :
    forget (Full u).1 = (TopLevel.Full (forget u)).1 ∧
    (Full u).2 = (TopLevel.Full (forget u)).2 := by
  rw [TopLevel_Full_eq, Full_snd, Full_fst]
  exact ⟨rfl, rfl⟩

theorem forget_Payload (o : RangeOrder) (pl : GoMap) (u : URL) :
    forget (Payload o pl u) = TopLevel.Payload o pl (forget u) := by
  unfold Payload TopLevel.Payload forget
  by_cases hv : u.verbose = true <;> simp [hv]

theorem forget_apply (c : SharedCall) (u : URL) :
    forget (c.toCall.apply u) = TopLevel.apply c (forget u) := by
  cases c
  case Payload o pl => exact forget_Payload o pl u
  case Full => exact (forget_Full u).1
  all_goals rfl

theorem forget_run (cs : List SharedCall) (u : URL) :
    forget (run (cs.map SharedCall.toCall) u) = TopLevel.run cs (forget u) := by
  induction cs generalizing u with
  | nil => rfl
  | cons c cs ih =>
    have h1 : run ((c :: cs).map SharedCall.toCall) u =
        run (cs.map SharedCall.toCall) (c.toCall.apply u) := rfl
    have h2 : TopLevel.run (c :: cs) (forget u) =
        TopLevel.run cs (TopLevel.apply c (forget u)) := rfl
    rw [h1, h2, ih, forget_apply]

theorem shared_verbose (cs : List SharedCall) (u : URL) :
    (run (cs.map SharedCall.toCall) u).verbose = u.verbose := by
  induction cs generalizing u with
  | nil => rfl
  | cons c cs ih =>
    have h1 : run ((c :: cs).map SharedCall.toCall) u =
        run (cs.map SharedCall.toCall) (c.toCall.apply u) := rfl
    rw [h1, ih]
    cases c
    case Payload o pl => rw [SharedCall.toCall, Call.apply, Payload_eq]
    case Full => rw [SharedCall.toCall, Call.apply, Full_fst]
    all_goals rfl

/-- C18: the builders of the two packages agree on the interface they share.
After the same sequence of calls of `Secure`, `SetPaginationArgNames`,
`Pagination`, `Method`, `Domain`, `Path`, `Args`, `Payload` and `Full` on the
result of `DefaultURL`, with the same iteration orders, `Full` returns the same
method, URL and body for the builder of package `bounce` and for the builder of
package `request`, the two hold the same argument, header and payload maps and
agree on every field they share, and `verbose` is still off. -/
theorem C18_builders_agree :
    (∀ cs : List SharedCall,
      (TopLevel.Full (TopLevel.run cs TopLevel.DefaultURL)).2 =
        (Full (run (cs.map SharedCall.toCall) DefaultURL)).2 ∧
      (TopLevel.run cs TopLevel.DefaultURL).ArgMap =
        (run (cs.map SharedCall.toCall) DefaultURL).ArgMap ∧
      (TopLevel.run cs TopLevel.DefaultURL).HeadersMap =
        (run (cs.map SharedCall.toCall) DefaultURL).HeadersMap ∧
      (TopLevel.run cs TopLevel.DefaultURL).PayloadMap =
        (run (cs.map SharedCall.toCall) DefaultURL).PayloadMap ∧
      TopLevel.run cs TopLevel.DefaultURL = forget (run (cs.map SharedCall.toCall) DefaultURL) ∧
      (run (cs.map SharedCall.toCall) DefaultURL).verbose = false) ∧
    forget DefaultURL = TopLevel.DefaultURL ∧
    (TopLevel.Full (TopLevel.Pagination (.int 1) (.int 100)
      (TopLevel.Args RangeOrder.listed (GoMap.ofList [("what", "that")])
        (TopLevel.Path ["here", "there", "everywhere"]
          (TopLevel.Domain "example.com" (TopLevel.Secure TopLevel.DefaultURL)))))).2.2.1
      = "https://example.com/here/there/everywhere?what=that&page=1&perPage=100" := by
  refine ⟨fun cs => ?_, rfl, by decide⟩
  have h : TopLevel.run cs TopLevel.DefaultURL =
      forget (run (cs.map SharedCall.toCall) DefaultURL) := by
    rw [forget_run]
    rfl
  refine ⟨?_, ?_, ?_, ?_, h, shared_verbose cs DefaultURL⟩
  · rw [h, ← (forget_Full _).2]
  · rw [h]; rfl
  · rw [h]; rfl
  · rw [h]; rfl

end Bounce
